import Mathlib

/-!
Verification of the color-pipeline core of the S1 palette generator.

The definitions below are a shallow embedding of the JavaScript source
(the v0.2.1 application embedded in `src/unnamed/part_000`; where the older
`src/src/App.jsx` differs it is noted in comments).  JavaScript numbers are
modelled by exact rationals; `Math.round` is `jsRound` (round half towards
positive infinity), the JS remainder operator is `jsMod` (sign of the
dividend), and `Math.random()` results are passed in explicitly as a stream
of rationals in [0,1).  A separate `JSNum` type models IEEE special values
(NaN and the infinities) where the claim under scrutiny depends on them.
-/

/-- An RGB color as produced and consumed by the source: a triple of
JavaScript numbers (integral 0..255 for valid colors). -/
abbrev Color : Type := ℚ × ℚ × ℚ

/-- Source `Math.round`: round half towards positive infinity. -/
def jsRound (q : ℚ) : ℤ := ⌊q + 1/2⌋

/-- Truncation towards zero, as used by the JS `%` operator. -/
def ratTrunc (q : ℚ) : ℤ := if 0 ≤ q then ⌊q⌋ else ⌈q⌉

/-- The JS remainder operator `a % b` (sign follows the dividend). -/
def jsMod (a b : ℚ) : ℚ := a - b * (ratTrunc (a / b) : ℚ)

/-- Source `rgbToHsl` from the source: channels are divided by 255, lightness is the
mid-range, saturation and hue follow the standard HSL formulas with the
achromatic case returning hue = saturation = 0. -/
def rgbToHsl (c : Color) : ℚ × ℚ × ℚ :=
  let r := c.1 / 255
  let g := c.2.1 / 255
  let b := c.2.2 / 255
  let mx := max r (max g b)
  let mn := min r (min g b)
  let l := (mx + mn) / 2
  if mx = mn then (0, 0, l)
  else
    let d := mx - mn
    let s := if 1/2 < l then d / (2 - mx - mn) else d / (mx + mn)
    let h := if r = mx then (g - b) / d + (if g < b then 6 else 0)
             else if g = mx then (b - r) / d + 2
             else (r - g) / d + 4
    (h / 6, s, l)

/-- The inner `hue2rgb` helper of `hslToRgb`, including its one-step
wrap-around adjustments of `t`. -/
def hue2rgb (p q t : ℚ) : ℚ :=
  let t1 := if t < 0 then t + 1 else t
  let t2 := if 1 < t1 then t1 - 1 else t1
  if t2 < 1/6 then p + (q - p) * 6 * t2
  else if t2 < 1/2 then q
  else if t2 < 2/3 then p + (q - p) * (2/3 - t2) * 6
  else p

/-- Source `hslToRgb` from the source: the achromatic branch sets all channels to
the lightness, otherwise the standard `p`/`q` construction is used; each
channel is scaled by 255 and rounded. -/
def hslToRgb (h s l : ℚ) : Color :=
  if s = 0 then
    ((jsRound (l * 255) : ℚ), (jsRound (l * 255) : ℚ), (jsRound (l * 255) : ℚ))
  else
    let q := if l < 1/2 then l * (1 + s) else l + s - l * s
    let p := 2 * l - q
    ((jsRound (hue2rgb p q (h + 1/3) * 255) : ℚ),
     (jsRound (hue2rgb p q h * 255) : ℚ),
     (jsRound (hue2rgb p q (h - 1/3) * 255) : ℚ))

/-- Source `rgbToHsv` from the source: value is the maximum channel, saturation is
chroma over value (0 for black), hue as in HSL with the achromatic case
returning 0. -/
def rgbToHsv (c : Color) : ℚ × ℚ × ℚ :=
  let r := c.1 / 255
  let g := c.2.1 / 255
  let b := c.2.2 / 255
  let mx := max r (max g b)
  let mn := min r (min g b)
  let d := mx - mn
  let s := if mx = 0 then 0 else d / mx
  let h := if mx = mn then 0
           else (if r = mx then (g - b) / d + (if g < b then 6 else 0)
                 else if g = mx then (b - r) / d + 2
                 else (r - g) / d + 4) / 6
  (h, s, mx)

/-- Source `hsvToRgb` from the source: sector index `i = floor(h*6)`, fractional
part `f`, and the `p`/`q`/`t` values, dispatched on `i % 6` (JS remainder).
The source's `switch` has no default; for hue outside [0,1) (unreachable
from `rgbToHsv`) the JS code would leave the channels undefined — that dead
branch is mapped to black here. -/
def hsvToRgb (h s v : ℚ) : Color :=
  let i : ℤ := ⌊h * 6⌋
  let f : ℚ := h * 6 - (i : ℚ)
  let p := v * (1 - s)
  let q := v * (1 - f * s)
  let t := v * (1 - (1 - f) * s)
  let sector : ℤ := Int.tmod i 6
  let rgb : ℚ × ℚ × ℚ :=
    if sector = 0 then (v, t, p)
    else if sector = 1 then (q, v, p)
    else if sector = 2 then (p, v, t)
    else if sector = 3 then (p, q, v)
    else if sector = 4 then (t, p, v)
    else if sector = 5 then (v, p, q)
    else (0, 0, 0)
  ((jsRound (rgb.1 * 255) : ℚ), (jsRound (rgb.2.1 * 255) : ℚ),
   (jsRound (rgb.2.2 * 255) : ℚ))

/-- The `toHex` helper of the export's `formatColor`: JS
`("0" + c.toString(16)).slice(-2).toUpperCase()`, i.e. prepend a zero to the
lowercase hex digits, keep the last two characters, and uppercase them.
`Nat.toDigits 16` matches `Number.prototype.toString(16)` on naturals. -/
def toHexChars (c : ℕ) : List Char :=
  let s := '0' :: Nat.toDigits 16 c
  (s.drop (s.length - 2)).map Char.toUpper

/-- Source `formatColor` from `handleExport`: the string `"FF" + toHex(b) + toHex(g)
+ toHex(r)` (opaque alpha first, then the channels in B-G-R order). -/
def formatColor (r g b : ℕ) : String :=
  String.mk ('F' :: 'F' :: (toHexChars b ++ toHexChars g ++ toHexChars r))

/-- The `colors` array of the exported `.colorpalette` JSON object: the
palette mapped through `formatColor`. -/
def exportColors (palette : List (ℕ × ℕ × ℕ)) : List String :=
  palette.map (fun c => formatColor c.1 c.2.1 c.2.2)

/-- Modelled from the spec's words for comparison with `formatColor`: the
two-digit zero-padded uppercase hex rendering of a channel value. -/
def specHexPair (c : ℕ) : List Char :=
  let digit := fun n => if n < 10 then Char.ofNat (48 + n) else Char.ofNat (55 + n)
  [digit (c / 16), digit (c % 16)]

/-- Modelled from the spec's words: an export entry is "FF" followed by the
two-digit uppercase hex of blue, green, then red. -/
def specEntry (r g b : ℕ) : String :=
  String.mk ('F' :: 'F' :: (specHexPair b ++ specHexPair g ++ specHexPair r))

/-- The loop of `filterSimilarColors`: `filtered` accumulates the kept
colors; a candidate is dropped when some already-kept color is within the
threshold (`difference < threshold`), else appended.  The perceptual metric
`deltaE` is a parameter `d` of the embedding: its Lab computation uses the
irrational powers 2.4 and 1/3, so its values are not rational; no claim
depends on particular distances. -/
def filterSimilarAux (d : Color → Color → ℚ) (t : ℚ) :
    List Color → List Color → List Color
  | filtered, [] => filtered
  | filtered, c :: rest =>
      if filtered.any (fun e => decide (d c e < t)) then
        filterSimilarAux d t filtered rest
      else
        filterSimilarAux d t (filtered ++ [c]) rest

/-- Source `filterSimilarColors` from the source: lists of length ≤ 1 are returned
as-is, otherwise the first color is kept unconditionally and the rest are
streamed through the greedy similarity check. -/
def filterSimilarColors (d : Color → Color → ℚ) (t : ℚ) (colors : List Color) :
    List Color :=
  match colors with
  | [] => []
  | c :: rest => filterSimilarAux d t [c] rest

/-- The range-filter predicate of the pipeline (`l > 0.1 && l < 0.95 &&
s > 0.1`). -/
def rangeKeep (c : Color) : Bool :=
  let hsl := rgbToHsl c
  decide ((0.1 : ℚ) < hsl.2.2) && decide (hsl.2.2 < (0.95 : ℚ)) &&
    decide ((0.1 : ℚ) < hsl.2.1)

/-- Source `filteredPalette` from the pipeline: keep exactly the colors passing the
range filter. -/
def filteredPalette (palette : List Color) : List Color :=
  palette.filter rangeKeep

/-- Modelled from the spec's words for comparison with `rangeKeep`: HSL
lightness strictly between 0.1 and 0.95 and saturation strictly above
0.1. -/
def specInRange (c : Color) : Prop :=
  (0.1 : ℚ) < (rgbToHsl c).2.2 ∧ (rgbToHsl c).2.2 < (0.95 : ℚ) ∧
    (0.1 : ℚ) < (rgbToHsl c).2.1

/-- Source `SepFrom d t pre l` says that every element of `l` is at distance ≥ `t`
from every element of `pre` and from every earlier element of `l` — the
invariant established by the greedy similarity filter. -/
def SepFrom (d : Color → Color → ℚ) (t : ℚ) : List Color → List Color → Prop
  | _, [] => True
  | pre, c :: rest => (∀ e ∈ pre, ¬ (d c e < t)) ∧ SepFrom d t (pre ++ [c]) rest

/-- A harmonization profile: the four scalar parameters and the two optional
clamp ranges of the source's `models` table. -/
structure HarmonyParams where
  l_mult : ℚ
  l_shift : ℚ
  s_mult : ℚ
  s_shift : ℚ
  l_range : Option (ℚ × ℚ)
  s_range : Option (ℚ × ℚ)
deriving DecidableEq

/-- The `none` profile (multipliers 1, shifts 0, no clamp ranges). -/
def noneParams : HarmonyParams := ⟨1, 0, 1, 0, none, none⟩

/-- The `models` lookup of `harmonizeColors`, including the JS fallback
`models[model] || models.none` for unknown keys. -/
def harmonyModels (model : String) : HarmonyParams :=
  if model = "70s" then ⟨0.85, 0.1, 0.7, 0.0, some (0.3, 0.7), some (0.4, 0.8)⟩
  else if model = "80s" then ⟨1.2, 0.0, 1.3, 0.1, some (0.4, 0.9), some (0.6, 1.0)⟩
  else if model = "vibrant" then ⟨1.0, 0.0, 1.4, 0.2, some (0.3, 0.8), some (0.7, 1.0)⟩
  else if model = "neon" then ⟨1.3, 0.1, 1.5, 0.3, some (0.6, 1.0), some (0.8, 1.0)⟩
  else if model = "pastel" then ⟨1.2, 0.2, 0.5, 0.0, some (0.7, 0.95), some (0.2, 0.6)⟩
  else if model = "earthy" then ⟨0.9, 0.0, 0.7, -0.1, some (0.2, 0.6), some (0.3, 0.7)⟩
  else if model = "jewel" then ⟨0.8, 0.0, 1.2, 0.1, some (0.3, 0.7), some (0.8, 1.0)⟩
  else noneParams

/-- The lightness updates of `harmonizeColors`, in source order: multiply
and shift when the multiplier is truthy (nonzero), clamp into the profile
range when present, then hard-clamp into [0,1]. -/
def applyLight (p : HarmonyParams) (l : ℚ) : ℚ :=
  let l1 := if p.l_mult ≠ 0 then l * p.l_mult + p.l_shift else l
  let l2 := match p.l_range with
            | some r => max r.1 (min r.2 l1)
            | none => l1
  min 1 (max 0 l2)

/-- The saturation updates of `harmonizeColors`, in source order (same shape
as the lightness updates). -/
def applySat (p : HarmonyParams) (s : ℚ) : ℚ :=
  let s1 := if p.s_mult ≠ 0 then s * p.s_mult + p.s_shift else s
  let s2 := match p.s_range with
            | some r => max r.1 (min r.2 s1)
            | none => s1
  min 1 (max 0 s2)

/-- The per-color body of `harmonizeColors`: convert to HSL, transform
saturation and lightness (the hue is passed through untouched), convert
back. -/
def harmonizeColor (p : HarmonyParams) (c : Color) : Color :=
  let hsl := rgbToHsl c
  hslToRgb hsl.1 (applySat p hsl.2.1) (applyLight p hsl.2.2)

/-- Source `harmonizeColors` from the source: map the per-color transform of the
looked-up profile over the palette. -/
def harmonizeColors (colors : List Color) (model : String) : List Color :=
  colors.map (harmonizeColor (harmonyModels model))

/-- The descending-lightness comparator used by the variation generators'
final `sort((a, b) => l2 - l1)`. -/
def lightDesc (a b : Color) : Bool :=
  decide ((rgbToHsl b).2.2 ≤ (rgbToHsl a).2.2)

/-- Source `generateColorVariations` from the source (v0.2.1): `numVariations`
lightness steps `0.15 + 0.7 * i/(N-1)` at the seed's hue and saturation with
random hue jitter `(r - 0.5) * 0.05` (taken mod 1) and clamped saturation
jitter `(r - 0.5) * 0.1`, sorted by descending lightness.  `Math.random()`
is the stream `rand` (two draws per step).  Note: over ℚ the `i/(N-1)` at
`N = 1` is `0/0 = 0`; the IEEE `0/0 = NaN` behavior of the source at `N = 1`
is modelled faithfully by `generateColorVariationsJS` below. -/
def generateColorVariations (rand : ℕ → ℚ) (baseColor : Color)
    (numVariations : ℕ) : List Color :=
  let hsl := rgbToHsl baseColor
  let variations := (List.range numVariations).map (fun (i : ℕ) =>
    let t : ℚ := (i : ℚ) / ((numVariations : ℚ) - 1)
    let varL := 0.15 + 0.7 * t
    let varH := jsMod (hsl.1 + (rand (2 * i) - 0.5) * 0.05) 1
    let varS := min 1 (max 0 (hsl.2.1 + (rand (2 * i + 1) - 0.5) * 0.1))
    hslToRgb varH varS varL)
  variations.mergeSort lightDesc

/-- Source `generateComplementaryPalette`: ceil half of the variations around the
seed, floor half around the hue rotated by 0.5, concatenated. -/
def generateComplementaryPalette (rand : ℕ → ℚ) (baseColor : Color)
    (numVariations : ℕ) : List Color :=
  let hsl := rgbToHsl baseColor
  let compH := jsMod (hsl.1 + 0.5) 1
  let baseVariations :=
    generateColorVariations (fun i => rand (2 * i)) baseColor ((numVariations + 1) / 2)
  let compVariations :=
    generateColorVariations (fun i => rand (2 * i + 1))
      (hslToRgb compH hsl.2.1 hsl.2.2) (numVariations / 2)
  baseVariations ++ compVariations

/-- Source `generateTriadicPalette`: the ceil-third around the seed, the remainder
split between the two hues rotated by 1/3 and 2/3. -/
def generateTriadicPalette (rand : ℕ → ℚ) (baseColor : Color)
    (numVariations : ℕ) : List Color :=
  let hsl := rgbToHsl baseColor
  let triadH1 := jsMod (hsl.1 + 1/3) 1
  let triadH2 := jsMod (hsl.1 + 2/3) 1
  let baseCount := (numVariations + 2) / 3
  let triad1Count := (numVariations - baseCount) / 2
  let triad2Count := numVariations - baseCount - triad1Count
  generateColorVariations (fun i => rand (3 * i)) baseColor baseCount ++
    generateColorVariations (fun i => rand (3 * i + 1))
      (hslToRgb triadH1 hsl.2.1 hsl.2.2) triad1Count ++
    generateColorVariations (fun i => rand (3 * i + 2))
      (hslToRgb triadH2 hsl.2.1 hsl.2.2) triad2Count

/-- Source `generateAnalogousPalette`: a deterministic sweep over a ±0.04 hue band
with the same lightness ramp, sorted by descending lightness. -/
def generateAnalogousPalette (baseColor : Color) (numVariations : ℕ) :
    List Color :=
  let hsl := rgbToHsl baseColor
  let variations := (List.range numVariations).map (fun (i : ℕ) =>
    let t : ℚ := (i : ℚ) / ((numVariations : ℚ) - 1)
    let varH := jsMod (hsl.1 + 0.08 * (t - 0.5)) 1
    let varL := 0.15 + 0.7 * t
    hslToRgb varH hsl.2.1 varL)
  variations.mergeSort lightDesc

/-- Source `generateMonochromaticPalette`: the plain lightness ramp at the seed's
hue and saturation, unsorted. -/
def generateMonochromaticPalette (baseColor : Color) (numVariations : ℕ) :
    List Color :=
  let hsl := rgbToHsl baseColor
  (List.range numVariations).map (fun (i : ℕ) =>
    let t : ℚ := (i : ℚ) / ((numVariations : ℚ) - 1)
    hslToRgb hsl.1 hsl.2.1 (0.15 + 0.7 * t))

/-- Source `getMedianColor`: the per-channel median (ascending sort, element at
index `floor(length / 2)`), black for an empty pixel list. -/
def getMedianColor (pixels : List Color) : Color :=
  if pixels = [] then (0, 0, 0)
  else
    let le := fun a b : ℚ => decide (a ≤ b)
    let rVals := (pixels.map (fun p => p.1)).mergeSort le
    let gVals := (pixels.map (fun p => p.2.1)).mergeSort le
    let bVals := (pixels.map (fun p => p.2.2)).mergeSort le
    let mid := pixels.length / 2
    (rVals.getD mid 0, gVals.getD mid 0, bVals.getD mid 0)


/-- A well-formed palette color: every channel is an integer in [0,255]
(the data-model invariant for colors at rest). -/
def ValidColor (c : Color) : Prop :=
  (∃ n : ℕ, n ≤ 255 ∧ c.1 = n) ∧ (∃ n : ℕ, n ≤ 255 ∧ c.2.1 = n) ∧
    (∃ n : ℕ, n ≤ 255 ∧ c.2.2 = n)

/-- The profile names present in the source's `models` table. -/
def knownModelNames : List String :=
  ["70s", "80s", "vibrant", "neon", "pastel", "earthy", "jewel", "none"]

/-- Source `Math.floor(rand * length)` as an index (rand is sampled in [0,1)). -/
def floorIdx (r : ℚ) (n : ℕ) : ℕ := (⌊r * (n : ℚ)⌋).toNat

/-- The minimum distance from `p` to the given centroids (the JS loop starts
from `Infinity`; every call site passes a nonempty centroid list, where this
first-element formulation agrees). -/
def minDistTo (d : Color → Color → ℚ) (centroids : List Color) (p : Color) : ℚ :=
  match centroids with
  | [] => 0
  | c0 :: rest => rest.foldl (fun m c => min m (d p c)) (d p c0)

/-- The roulette selection of the k-means++-style seeding: the first index
whose cumulative distance reaches the drawn value (`none` when the loop runs
out, in which case the JS pushes nothing). -/
def rouletteFind (rv : ℚ) : ℚ → ℕ → List ℚ → Option ℕ
  | _, _, [] => none
  | acc, j, x :: rest =>
      if rv ≤ acc + x then some j else rouletteFind rv (acc + x) (j + 1) rest

/-- The seeding loop of `kMeansClustering` (`for i = 1; i < k; i++`):
each step draws one random value and appends the roulette-selected sample. -/
def seedCentroids (d : Color → Color → ℚ) (rand : ℕ → ℚ)
    (sampled : List Color) : ℕ → ℕ → List Color → List Color
  | _, 0, centroids => centroids
  | off, steps + 1, centroids =>
      let distances := sampled.map (minDistTo d centroids)
      let total := distances.sum
      let rv := rand off * total
      let centroids' :=
        match rouletteFind rv 0 0 distances with
        | some j => centroids ++ [sampled.getD j (0, 0, 0)]
        | none => centroids
      seedCentroids d rand sampled (off + 1) steps centroids'

/-- The assignment step: index of the nearest centroid, first minimum wins
(the JS updates only on a strictly smaller distance). -/
def nearestIndex (d : Color → Color → ℚ) (centroids : List Color)
    (p : Color) : ℕ :=
  match centroids with
  | [] => 0
  | c0 :: rest =>
      (rest.foldl (fun (acc : ℕ × ℚ × ℕ) c =>
          if d p c < acc.2.1 then (acc.2.2, d p c, acc.2.2 + 1)
          else (acc.1, acc.2.1, acc.2.2 + 1))
        (0, d p c0, 1)).1

/-- One update round of `kMeansClustering`: cluster the samples by nearest
centroid, replace each centroid whose cluster is nonempty by the cluster's
median when it moved by more than delta-E 1, and report whether anything
changed. -/
def updateStep (d : Color → Color → ℚ) (sampled : List Color)
    (centroids : List Color) : List Color × Bool :=
  let upd := centroids.enum.map (fun ic =>
    let cluster := sampled.filter (fun p => nearestIndex d centroids p = ic.1)
    if cluster = [] then (ic.2, false)
    else
      let nc := getMedianColor cluster
      if 1 < d nc ic.2 then (nc, true) else (ic.2, false))
  (upd.map Prod.fst, upd.any Prod.snd)

/-- The iteration loop of `kMeansClustering`, capped by `maxIterations` and
stopping early when no centroid moved.  The 5-second wall-clock abort of the
source (a soft deadline on real time) has no shallow-embedding counterpart
and is modelled as never firing. -/
def kmeansIterate (d : Color → Color → ℚ) (sampled : List Color) :
    ℕ → List Color → List Color
  | 0, centroids => centroids
  | fuel + 1, centroids =>
      let step := updateStep d sampled centroids
      if step.2 then kmeansIterate d sampled fuel step.1 else step.1

/-- Source `kMeansClustering` from the source: empty input or a zero cluster count
returns the empty list; otherwise sample down to `sampleSize` (with
replacement) when the buffer is larger, seed by roulette selection, and
iterate.  `rand` is the `Math.random()` stream. -/
def kMeansClustering (d : Color → Color → ℚ) (rand : ℕ → ℚ)
    (pixels : List Color) (k maxIterations sampleSize : ℕ) : List Color :=
  if pixels = [] ∨ k = 0 then []
  else
    let sampledPixels :=
      if sampleSize < pixels.length then
        (List.range sampleSize).map
          (fun i => pixels.getD (floorIdx (rand i) pixels.length) (0, 0, 0))
      else pixels
    let off := if sampleSize < pixels.length then sampleSize else 0
    let c0 := sampledPixels.getD (floorIdx (rand off) sampledPixels.length) (0, 0, 0)
    kmeansIterate d sampledPixels maxIterations
      (seedCentroids d rand sampledPixels (off + 1) (k - 1) [c0])

/-- Source `getDominantColors` from the source: when the buffer has fewer pixels
than requested, pad by random sampling (`pixels[...] || [0,0,0]`, which is
black exactly when the index misses, in particular always on an empty
buffer); otherwise run k-means with 10 iterations and sample cap 1000. -/
def getDominantColors (d : Color → Color → ℚ) (rand : ℕ → ℚ)
    (pixels : List Color) (count : ℕ) : List Color :=
  if pixels.length < count then
    (List.range count).map
      (fun i => pixels.getD (floorIdx (rand i) pixels.length) (0, 0, 0))
  else
    kMeansClustering d rand pixels count 10 1000

/-- The six hue-category range lists (red, orange, yellow, green, blue,
purple) with the source's literal bounds; red wraps around 0/1. -/
def hueCategories : List (List (ℚ × ℚ)) :=
  [[(0, 0.0833), (0.9167, 1)],
   [(0.0833, 0.1667)],
   [(0.1667, 0.25)],
   [(0.25, 0.5)],
   [(0.5, 0.75)],
   [(0.75, 0.9167)]]

/-- The categorical pixel test: the HSL hue falls in one of the category's
half-open ranges (`h >= low && h < high`). -/
def inCategory (ranges : List (ℚ × ℚ)) (p : Color) : Bool :=
  ranges.any (fun lh =>
    decide (lh.1 ≤ (rgbToHsl p).1) && decide ((rgbToHsl p).1 < lh.2))

/-- The `switch (paletteType)` of the pipeline: pick the expansion strategy,
defaulting to plain variations. -/
def expandSeed (rand : ℕ → ℚ) (paletteType : String) (n : ℕ)
    (seed : Color) : List Color :=
  if paletteType = "complementary" then generateComplementaryPalette rand seed n
  else if paletteType = "triadic" then generateTriadicPalette rand seed n
  else if paletteType = "analogous" then generateAnalogousPalette seed n
  else if paletteType = "monochromatic" then generateMonochromaticPalette seed n
  else generateColorVariations rand seed n

/-- The exact dedup of the pipeline (`new Set(...map(JSON.stringify))`):
keep the first occurrence of each triple, in order. -/
def jsDedupAux : List Color → List Color → List Color
  | _, [] => []
  | seen, c :: rest =>
      if c ∈ seen then jsDedupAux seen rest
      else c :: jsDedupAux (c :: seen) rest

/-- The tail of the pipeline: optional harmonization (skipped for "none"),
range filter, similarity filter, exact dedup. -/
def refinePalette (d : Color → Color → ℚ) (threshold : ℚ)
    (harmonizeModel : String) (raw : List Color) : List Color :=
  let p1 := if harmonizeModel ≠ "none" then harmonizeColors raw harmonizeModel
            else raw
  let p2 := p1.filter rangeKeep
  let p3 := filterSimilarColors d threshold p2
  jsDedupAux [] p3

/-- The categorical pipeline of the image-load effect: for each category in
fixed order, the non-empty pixel groups contribute the expansion of their
median color; then refine.  `rands` supplies one random stream per
category. -/
def runCategorical (d : Color → Color → ℚ) (rands : ℕ → ℕ → ℚ)
    (paletteType : String) (colorsPerHue : ℕ) (harmonizeModel : String)
    (threshold : ℚ) (pixels : List Color) : List Color :=
  let raw := (hueCategories.enum.map (fun ir =>
    let catPixels := pixels.filter (inCategory ir.2)
    if catPixels = [] then []
    else expandSeed (rands ir.1) paletteType colorsPerHue
      (getMedianColor catPixels))).flatten
  refinePalette d threshold harmonizeModel raw

/-- The clustered ("complementary" extraction method) pipeline: expand each
dominant color with `floor(colorsPerHue / dominantColorCount)` variations
(the division is never reached with a zero count, since the seed list is
then empty); then refine. -/
def runClustered (d : Color → Color → ℚ) (rand : ℕ → ℚ) (rands : ℕ → ℕ → ℚ)
    (paletteType : String) (colorsPerHue dominantColorCount : ℕ)
    (harmonizeModel : String) (threshold : ℚ) (pixels : List Color) :
    List Color :=
  let seeds := getDominantColors d rand pixels dominantColorCount
  let raw := (seeds.enum.map (fun ic =>
    expandSeed (rands ic.1) paletteType (colorsPerHue / dominantColorCount)
      ic.2)).flatten
  refinePalette d threshold harmonizeModel raw


/-- IEEE-754 double values as far as the source can observe them: a finite
value (exact rational), NaN, or a signed infinity.  Signed zero is collapsed
to `num 0` (the source never distinguishes the zeros). -/
inductive JSNum where
  | num : ℚ → JSNum
  | nan : JSNum
  | inf : JSNum
  | ninf : JSNum
deriving DecidableEq

/-- IEEE addition on `JSNum`. -/
def jsAdd : JSNum → JSNum → JSNum
  | .num a, .num b => .num (a + b)
  | .nan, _ => .nan
  | _, .nan => .nan
  | .inf, .ninf => .nan
  | .ninf, .inf => .nan
  | .inf, _ => .inf
  | _, .inf => .inf
  | .ninf, _ => .ninf
  | _, .ninf => .ninf

/-- IEEE negation on `JSNum`. -/
def jsNeg : JSNum → JSNum
  | .num a => .num (-a)
  | .nan => .nan
  | .inf => .ninf
  | .ninf => .inf

/-- IEEE subtraction on `JSNum`. -/
def jsSub (a b : JSNum) : JSNum := jsAdd a (jsNeg b)

/-- IEEE multiplication on `JSNum`. -/
def jsMul : JSNum → JSNum → JSNum
  | .num a, .num b => .num (a * b)
  | .nan, _ => .nan
  | _, .nan => .nan
  | .inf, .num b => if b = 0 then .nan else if 0 < b then .inf else .ninf
  | .num a, .inf => if a = 0 then .nan else if 0 < a then .inf else .ninf
  | .ninf, .num b => if b = 0 then .nan else if 0 < b then .ninf else .inf
  | .num a, .ninf => if a = 0 then .nan else if 0 < a then .ninf else .inf
  | .inf, .inf => .inf
  | .inf, .ninf => .ninf
  | .ninf, .inf => .ninf
  | .ninf, .ninf => .inf

/-- IEEE division on `JSNum`: in particular `0 / 0 = NaN` and `x / 0 = ±∞`
for nonzero finite `x` (zero is treated as +0). -/
def jsDivN : JSNum → JSNum → JSNum
  | .num a, .num b =>
      if b = 0 then (if a = 0 then .nan else if 0 < a then .inf else .ninf)
      else .num (a / b)
  | .nan, _ => .nan
  | _, .nan => .nan
  | .inf, .inf => .nan
  | .inf, .ninf => .nan
  | .ninf, .inf => .nan
  | .ninf, .ninf => .nan
  | .inf, .num b => if 0 ≤ b then .inf else .ninf
  | .ninf, .num b => if 0 ≤ b then .ninf else .inf
  | .num _, .inf => .num 0
  | .num _, .ninf => .num 0

/-- The JS `<` comparison: false whenever NaN is involved. -/
def jsLt : JSNum → JSNum → Bool
  | .num a, .num b => decide (a < b)
  | .nan, _ => false
  | _, .nan => false
  | .inf, _ => false
  | _, .inf => true
  | .ninf, .ninf => false
  | .ninf, _ => true
  | _, .ninf => false

/-- The JS `===` comparison on numbers: false whenever NaN is involved. -/
def jsEqb : JSNum → JSNum → Bool
  | .num a, .num b => decide (a = b)
  | .inf, .inf => true
  | .ninf, .ninf => true
  | _, _ => false

/-- Source `Math.round` on `JSNum` (NaN and infinities pass through). -/
def jsRoundN : JSNum → JSNum
  | .num q => .num ((jsRound q : ℤ) : ℚ)
  | .nan => .nan
  | .inf => .inf
  | .ninf => .ninf

/-- Source `Math.max` on `JSNum` (NaN-propagating). -/
def jsMax (a b : JSNum) : JSNum :=
  match a, b with
  | .nan, _ => .nan
  | _, .nan => .nan
  | _, _ => if jsLt a b then b else a

/-- Source `Math.min` on `JSNum` (NaN-propagating). -/
def jsMin (a b : JSNum) : JSNum :=
  match a, b with
  | .nan, _ => .nan
  | _, .nan => .nan
  | _, _ => if jsLt a b then a else b

/-- Source `hue2rgb` over `JSNum`: the same branch structure as `hue2rgb`, with
IEEE comparison semantics (a NaN `t` falls through every branch). -/
def hue2rgbJS (p q t : JSNum) : JSNum :=
  let t1 := if jsLt t (.num 0) then jsAdd t (.num 1) else t
  let t2 := if jsLt (.num 1) t1 then jsSub t1 (.num 1) else t1
  if jsLt t2 (.num (1/6)) then
    jsAdd p (jsMul (jsMul (jsSub q p) (.num 6)) t2)
  else if jsLt t2 (.num (1/2)) then q
  else if jsLt t2 (.num (2/3)) then
    jsAdd p (jsMul (jsMul (jsSub q p) (jsSub (.num (2/3)) t2)) (.num 6))
  else p

/-- Source `hslToRgb` over `JSNum` (IEEE semantics; e.g. `s === 0` is false for a
NaN saturation, and every comparison with a NaN lightness is false). -/
def hslToRgbJS (h s l : JSNum) : JSNum × JSNum × JSNum :=
  if jsEqb s (.num 0) then
    (jsRoundN (jsMul l (.num 255)), jsRoundN (jsMul l (.num 255)),
     jsRoundN (jsMul l (.num 255)))
  else
    let q := if jsLt l (.num (1/2)) then jsMul l (jsAdd (.num 1) s)
             else jsSub (jsAdd l s) (jsMul l s)
    let p := jsSub (jsMul (.num 2) l) q
    (jsRoundN (jsMul (hue2rgbJS p q (jsAdd h (.num (1/3)))) (.num 255)),
     jsRoundN (jsMul (hue2rgbJS p q h) (.num 255)),
     jsRoundN (jsMul (hue2rgbJS p q (jsSub h (.num (1/3)))) (.num 255)))

/-- Source `rgbToHsl` over `JSNum`, used by the sort comparator of the variation
generator when channels may be NaN. -/
def rgbToHslJS (c : JSNum × JSNum × JSNum) : JSNum × JSNum × JSNum :=
  let r := jsDivN c.1 (.num 255)
  let g := jsDivN c.2.1 (.num 255)
  let b := jsDivN c.2.2 (.num 255)
  let mx := jsMax r (jsMax g b)
  let mn := jsMin r (jsMin g b)
  let l := jsDivN (jsAdd mx mn) (.num 2)
  if jsEqb mx mn then (.num 0, .num 0, l)
  else
    let d := jsSub mx mn
    let s := if jsLt (.num (1/2)) l then jsDivN d (jsSub (jsSub (.num 2) mx) mn)
             else jsDivN d (jsAdd mx mn)
    let h := if jsEqb r mx then
               jsAdd (jsDivN (jsSub g b) d) (if jsLt g b then .num 6 else .num 0)
             else if jsEqb g mx then jsAdd (jsDivN (jsSub b r) d) (.num 2)
             else jsAdd (jsDivN (jsSub r g) d) (.num 4)
    (jsDivN h (.num 6), s, l)

/-- The descending-lightness comparator over `JSNum` colors.  A NaN
comparator value is treated as 0 by the JS engine (elements compare equal
and keep their relative order), which is what the negated strict test
models. -/
def lightDescJS (a b : JSNum × JSNum × JSNum) : Bool :=
  !(jsLt (.num 0) (jsSub (rgbToHslJS b).2.2 (rgbToHslJS a).2.2))

/-- Source `generateColorVariations` over `JSNum`, faithful to IEEE arithmetic: the
step fraction is `i / (numVariations - 1)`, which is `0 / 0 = NaN` when
`numVariations = 1`.  The seed conversion and the jitters involve only
finite values and are computed in ℚ. -/
def generateColorVariationsJS (rand : ℕ → ℚ) (baseColor : Color)
    (numVariations : ℕ) : List (JSNum × JSNum × JSNum) :=
  let hsl := rgbToHsl baseColor
  let variations := (List.range numVariations).map (fun (i : ℕ) =>
    let t := jsDivN (.num (i : ℚ)) (.num ((numVariations : ℚ) - 1))
    let varL := jsAdd (.num 0.15) (jsMul (.num 0.7) t)
    let varH := jsMod (hsl.1 + (rand (2 * i) - 0.5) * 0.05) 1
    let varS := min 1 (max 0 (hsl.2.1 + (rand (2 * i + 1) - 0.5) * 0.1))
    hslToRgbJS (.num varH) (.num varS) varL)
  variations.mergeSort lightDescJS


/-- The HSL round trip `hslToRgb(rgbToHsl(c))` as a single function. -/
def hslRoundTrip (c : Color) : Color :=
  hslToRgb (rgbToHsl c).1 (rgbToHsl c).2.1 (rgbToHsl c).2.2

/-- The HSV round trip `hsvToRgb(rgbToHsv(c))` as a single function. -/
def hsvRoundTrip (c : Color) : Color :=
  hsvToRgb (rgbToHsv c).1 (rgbToHsv c).2.1 (rgbToHsv c).2.2

/-! ## Theorems -/

set_option maxRecDepth 8000

/-- Every channel value in [0,255] is rendered by the export's `toHex`
exactly as its two-digit zero-padded uppercase hex form. -/
theorem toHexChars_eq_specHexPair : ∀ c : Fin 256, toHexChars c.val = specHexPair c.val := by
  decide

/-- C1: for every palette color with integer channels in [0,255], the
exported entry is the 8-hex-digit uppercase string "FF" followed by the
two-digit zero-padded hex of blue, then green, then red; in particular the
palette [[255,0,0]] exports as colors ["FF0000FF"]. -/
theorem formatColor_is_FF_BGR_hex (r g b : ℕ) (hr : r ≤ 255) (hg : g ≤ 255)
    (hb : b ≤ 255) :
    formatColor r g b = specEntry r g b ∧ exportColors [(255, 0, 0)] = ["FF0000FF"] := by
  constructor
  · have h1 := toHexChars_eq_specHexPair ⟨r, by omega⟩
    have h2 := toHexChars_eq_specHexPair ⟨g, by omega⟩
    have h3 := toHexChars_eq_specHexPair ⟨b, by omega⟩
    simp only [formatColor, specEntry]
    rw [show (⟨r, by omega⟩ : Fin 256).val = r from rfl] at h1
    rw [show (⟨g, by omega⟩ : Fin 256).val = g from rfl] at h2
    rw [show (⟨b, by omega⟩ : Fin 256).val = b from rfl] at h3
    rw [h1, h2, h3]
  · decide

/-- Witness for C1 at the concrete color (3, 250, 17). -/
theorem formatColor_is_FF_BGR_hex_witness :
    formatColor 3 250 17 = specEntry 3 250 17 :=
  (formatColor_is_FF_BGR_hex 3 250 17 (by norm_num) (by norm_num) (by norm_num)).1


/-- C5: the range filter keeps exactly the palette colors with HSL lightness
strictly between 0.1 and 0.95 and saturation strictly above 0.1, and drops
every other color. -/
theorem filteredPalette_keeps_exactly_range (palette : List Color) (c : Color) :
    c ∈ filteredPalette palette ↔ c ∈ palette ∧ specInRange c := by
  simp [filteredPalette, rangeKeep, specInRange, List.mem_filter, and_assoc]

/-- Appending one color to the suffix of a separation statement. -/
theorem sepFrom_append_single (d : Color → Color → ℚ) (t : ℚ) :
    ∀ (l pre : List Color) (c : Color),
      SepFrom d t pre (l ++ [c]) ↔
        SepFrom d t pre l ∧ (∀ e ∈ pre ++ l, ¬ (d c e < t)) := by
  intro l
  induction l with
  | nil => intro pre c; simp [SepFrom]
  | cons x xs ih =>
      intro pre c
      have hmem : ∀ e : Color, e ∈ (pre ++ [x]) ++ xs ↔ e ∈ pre ++ x :: xs := by
        intro e
        simp [List.mem_append, List.mem_cons, or_assoc]
      constructor
      · rintro ⟨h1, h2⟩
        simp only [List.append_eq] at h2
        rw [ih] at h2
        obtain ⟨h2a, h2b⟩ := h2
        exact ⟨⟨h1, h2a⟩, fun e he => h2b e ((hmem e).mpr he)⟩
      · rintro ⟨⟨h1, h2⟩, h3⟩
        refine ⟨h1, ?_⟩
        simp only [List.append_eq]
        rw [ih]
        exact ⟨h2, fun e he => h3 e ((hmem e).mp he)⟩

/-- If the remaining colors are already separated from the kept ones (and
from each other), the similarity-filter loop keeps all of them. -/
theorem filterSimilarAux_of_sep (d : Color → Color → ℚ) (t : ℚ) :
    ∀ (l kept : List Color), SepFrom d t kept l →
      filterSimilarAux d t kept l = kept ++ l := by
  intro l
  induction l with
  | nil => intro kept _; simp [filterSimilarAux]
  | cons c rest ih =>
      intro kept hsep
      obtain ⟨h1, h2⟩ := hsep
      have hany : (kept.any fun e => decide (d c e < t)) = false := by
        simp only [List.any_eq_false, decide_eq_true_eq]
        exact h1
      simp only [filterSimilarAux, hany, Bool.false_eq_true, if_false]
      rw [ih (kept ++ [c]) h2]
      simp

/-- The output of the similarity-filter loop is separated, provided the
already-kept colors were. -/
theorem filterSimilarAux_sep (d : Color → Color → ℚ) (t : ℚ) :
    ∀ (l kept : List Color), SepFrom d t [] kept →
      SepFrom d t [] (filterSimilarAux d t kept l) := by
  intro l
  induction l with
  | nil => intro kept h; simpa [filterSimilarAux] using h
  | cons c rest ih =>
      intro kept hkept
      by_cases hany : (kept.any fun e => decide (d c e < t)) = true
      · simp only [filterSimilarAux, hany, if_true]
        exact ih kept hkept
      · have hfalse : (kept.any fun e => decide (d c e < t)) = false :=
          Bool.not_eq_true _ ▸ (Bool.eq_false_iff.mpr hany)
        simp only [filterSimilarAux, hfalse, Bool.false_eq_true, if_false]
        apply ih
        rw [sepFrom_append_single]
        refine ⟨hkept, ?_⟩
        intro e he
        simp only [List.nil_append] at he
        have := List.any_eq_false.mp hfalse e he
        simpa using this

/-- The similarity-filter loop returns the kept colors followed by some of
the candidates. -/
theorem filterSimilarAux_shape (d : Color → Color → ℚ) (t : ℚ) :
    ∀ (l kept : List Color), ∃ extras,
      filterSimilarAux d t kept l = kept ++ extras := by
  intro l
  induction l with
  | nil => intro kept; exact ⟨[], by simp [filterSimilarAux]⟩
  | cons c rest ih =>
      intro kept
      by_cases hany : (kept.any fun e => decide (d c e < t)) = true
      · obtain ⟨extras, he⟩ := ih kept
        exact ⟨extras, by simp only [filterSimilarAux, hany, if_true, he]⟩
      · have hfalse : (kept.any fun e => decide (d c e < t)) = false :=
          Bool.not_eq_true _ ▸ (Bool.eq_false_iff.mpr hany)
        obtain ⟨extras, he⟩ := ih (kept ++ [c])
        refine ⟨c :: extras, ?_⟩
        simp only [filterSimilarAux, hfalse, Bool.false_eq_true, if_false, he]
        simp

/-- C6: the similarity filter is idempotent — filtering an already-filtered
color list again at the same threshold returns it unchanged, for every
distance function and threshold. -/
theorem filterSimilarColors_idempotent (d : Color → Color → ℚ) (t : ℚ)
    (colors : List Color) :
    filterSimilarColors d t (filterSimilarColors d t colors) =
      filterSimilarColors d t colors := by
  cases colors with
  | nil => rfl
  | cons c rest =>
      have hsep : SepFrom d t [] (filterSimilarAux d t [c] rest) := by
        apply filterSimilarAux_sep
        simp [SepFrom]
      obtain ⟨extras, hshape⟩ := filterSimilarAux_shape d t rest [c]
      simp only [filterSimilarColors, hshape]
      rw [hshape] at hsep
      simp only [List.singleton_append] at hsep
      obtain ⟨-, hsep2⟩ := hsep
      simp only [List.nil_append] at hsep2
      exact filterSimilarAux_of_sep d t extras [c] hsep2

set_option maxHeartbeats 1000000

theorem hue2rgb_low (p q t : ℚ) (h1 : 0 ≤ t) (h2 : t ≤ 1/6) :
    hue2rgb p q t = p + (q - p) * 6 * t := by
  simp only [hue2rgb]
  rw [if_neg (show ¬ t < 0 by linarith), if_neg (show ¬ (1:ℚ) < t by linarith)]
  by_cases h3 : t < 1/6
  · rw [if_pos h3]
  · have ht : t = 1/6 := le_antisymm h2 (not_lt.mp h3)
    rw [if_neg h3, if_pos (show t < 1/2 by linarith), ht]
    ring

theorem hue2rgb_mid (p q t : ℚ) (h1 : 1/6 ≤ t) (h2 : t ≤ 1/2) :
    hue2rgb p q t = q := by
  simp only [hue2rgb]
  rw [if_neg (show ¬ t < 0 by linarith), if_neg (show ¬ (1:ℚ) < t by linarith),
    if_neg (show ¬ t < 1/6 by linarith)]
  by_cases h3 : t < 1/2
  · rw [if_pos h3]
  · have ht : t = 1/2 := le_antisymm h2 (not_lt.mp h3)
    rw [if_neg h3, if_pos (show t < 2/3 by linarith), ht]
    ring

theorem hue2rgb_third (p q t : ℚ) (h1 : 1/2 ≤ t) (h2 : t ≤ 2/3) :
    hue2rgb p q t = p + (q - p) * (2/3 - t) * 6 := by
  simp only [hue2rgb]
  rw [if_neg (show ¬ t < 0 by linarith), if_neg (show ¬ (1:ℚ) < t by linarith),
    if_neg (show ¬ t < 1/6 by linarith), if_neg (show ¬ t < 1/2 by linarith)]
  by_cases h3 : t < 2/3
  · rw [if_pos h3]
  · have ht : t = 2/3 := le_antisymm h2 (not_lt.mp h3)
    rw [if_neg h3, ht]
    ring

theorem hue2rgb_high (p q t : ℚ) (h1 : 2/3 ≤ t) (h2 : t ≤ 1) :
    hue2rgb p q t = p := by
  simp only [hue2rgb]
  rw [if_neg (show ¬ t < 0 by linarith), if_neg (show ¬ (1:ℚ) < t by linarith),
    if_neg (show ¬ t < 1/6 by linarith), if_neg (show ¬ t < 1/2 by linarith),
    if_neg (show ¬ t < 2/3 by linarith)]

theorem hue2rgb_shift_up (p q t : ℚ) (h1 : -1 ≤ t) (h2 : t < 0) :
    hue2rgb p q t = hue2rgb p q (t + 1) := by
  simp only [hue2rgb]
  rw [if_pos h2, if_neg (show ¬ t + 1 < 0 by linarith),
    if_neg (show ¬ (1:ℚ) < t + 1 by linarith)]

theorem hue2rgb_shift_down (p q t : ℚ) (h1 : 1 < t) (h2 : t ≤ 2) :
    hue2rgb p q t = hue2rgb p q (t - 1) := by
  simp only [hue2rgb]
  rw [if_neg (show ¬ t < 0 by linarith), if_pos h1,
    if_neg (show ¬ t - 1 < 0 by linarith), if_neg (show ¬ (1:ℚ) < t - 1 by linarith)]

theorem hsl_pq (mx mn s : ℚ) (h0 : 0 ≤ mn) (h1 : mn < mx) (h2 : mx ≤ 1)
    (hs : s = if 1/2 < (mx + mn) / 2 then (mx - mn) / (2 - mx - mn)
          else (mx - mn) / (mx + mn)) :
    0 < s ∧
      (if (mx + mn) / 2 < 1/2 then ((mx + mn) / 2) * (1 + s)
       else (mx + mn) / 2 + s - ((mx + mn) / 2) * s) = mx := by
  have hsum_pos : 0 < mx + mn := by linarith
  have hsum_lt : mx + mn < 2 := by linarith
  rcases lt_trichotomy ((mx + mn) / 2) (1/2) with hlt | heq | hgt
  · rw [if_neg (by linarith)] at hs
    rw [if_pos hlt, hs]
    constructor
    · exact div_pos (by linarith) hsum_pos
    · field_simp
      ring
  · have hsum : mx + mn = 1 := by linarith
    rw [if_neg (by linarith), hsum, div_one] at hs
    rw [if_neg (by linarith), hs]
    constructor
    · linarith
    · rw [hsum]
      ring_nf
      linarith
  · have hden : (2 : ℚ) - mx - mn ≠ 0 := by linarith
    rw [if_pos hgt] at hs
    rw [if_neg (by linarith), hs]
    constructor
    · exact div_pos (by linarith) (by linarith)
    · field_simp
      ring

theorem hsl_roundtrip (r g b : ℚ) (hr0 : 0 ≤ r) (hr1 : r ≤ 255) (hg0 : 0 ≤ g)
    (hg1 : g ≤ 255) (hb0 : 0 ≤ b) (hb1 : b ≤ 255) :
    hslToRgb (rgbToHsl (r, g, b)).1 (rgbToHsl (r, g, b)).2.1
        (rgbToHsl (r, g, b)).2.2 =
      ((jsRound r : ℚ), (jsRound g : ℚ), (jsRound b : ℚ)) := by
  simp only [rgbToHsl]
  set x := r / 255 with hxdef
  set y := g / 255 with hydef
  set z := b / 255 with hzdef
  have hx0 : 0 ≤ x := by rw [hxdef]; positivity
  have hy0 : 0 ≤ y := by rw [hydef]; positivity
  have hz0 : 0 ≤ z := by rw [hzdef]; positivity
  have hx1 : x ≤ 1 := by rw [hxdef]; linarith
  have hy1 : y ≤ 1 := by rw [hydef]; linarith
  have hz1 : z ≤ 1 := by rw [hzdef]; linarith
  have hxr : x * 255 = r := by rw [hxdef]; field_simp
  have hyg : y * 255 = g := by rw [hydef]; field_simp
  have hzb : z * 255 = b := by rw [hzdef]; field_simp
  by_cases hach : max x (max y z) = min x (min y z)
  · rw [if_pos hach]
    have hyx : y = x := by
      have h1 : min x (min y z) ≤ y := le_trans (min_le_right _ _) (min_le_left _ _)
      have h2 : y ≤ max x (max y z) := le_trans (le_max_left _ _) (le_max_right _ _)
      have h3 : x ≤ max x (max y z) := le_max_left _ _
      have h4 : min x (min y z) ≤ x := min_le_left _ _
      rw [hach] at h2 h3
      linarith
    have hzx : z = x := by
      have h1 : min x (min y z) ≤ z := le_trans (min_le_right _ _) (min_le_right _ _)
      have h2 : z ≤ max x (max y z) := le_trans (le_max_right _ _) (le_max_right _ _)
      have h3 : x ≤ max x (max y z) := le_max_left _ _
      have h4 : min x (min y z) ≤ x := min_le_left _ _
      rw [hach] at h2 h3
      linarith
    have hgr : g = r := by rw [← hyg, ← hxr, hyx]
    have hbr : b = r := by rw [← hzb, ← hxr, hzx]
    rw [hyx, hzx, max_self, min_self, max_self, min_self]
    have hmidx : (x + x) / 2 = x := by ring
    dsimp only
    rw [hmidx, hslToRgb, if_pos rfl, hxr, hgr, hbr]
  · rw [if_neg hach]
    dsimp only
    set mx := max x (max y z) with hmxdef
    set mn := min x (min y z) with hmndef
    have hmn0 : 0 ≤ mn := le_min hx0 (le_min hy0 hz0)
    have hmx1 : mx ≤ 1 := max_le hx1 (max_le hy1 hz1)
    have hmnmx : mn < mx :=
      lt_of_le_of_ne (le_trans (min_le_left _ _) (le_max_left _ _))
        (fun h => hach h.symm)
    obtain ⟨hS, hQ⟩ := hsl_pq mx mn _ hmn0 hmnmx hmx1 rfl
    rw [hslToRgb, if_neg hS.ne']
    dsimp only
    rw [hQ]
    have hP : 2 * ((mx + mn) / 2) - mx = mn := by ring
    rw [hP]
    by_cases hxm : x = mx
    · rw [if_pos hxm]
      have hyx : y ≤ x := by
        calc y ≤ max y z := le_max_left y z
        _ ≤ mx := le_max_right x (max y z)
        _ = x := hxm.symm
      have hzx : z ≤ x := by
        calc z ≤ max y z := le_max_right y z
        _ ≤ mx := le_max_right x (max y z)
        _ = x := hxm.symm
      have hmxeq : mx = x := hxm.symm
      rcases le_or_lt z y with hzy | hylt
      · -- red is max, green ≥ blue: hue in [0, 1/6]
        have hmneq : mn = z := by
          rw [hmndef, min_eq_right hzy, min_eq_right hzx]
        rw [if_neg (not_lt.mpr hzy), hmxeq, hmneq]
        have hzltx : z < x := by rw [hmxeq, hmneq] at hmnmx; exact hmnmx
        have hdne : x - z ≠ 0 := sub_ne_zero.mpr hzltx.ne'
        set A := (y - z) / (x - z) with hAdef
        have hA0 : 0 ≤ A := div_nonneg (by linarith) (by linarith)
        have hA1 : A ≤ 1 := by
          rw [hAdef, div_le_one (by linarith)]
          linarith
        simp only [Prod.mk.injEq]
        refine ⟨?_, ?_, ?_⟩
        · rw [hue2rgb_mid z x ((A + 0) / 6 + 1/3) (by linarith) (by linarith), hxr]
        · rw [hue2rgb_low z x ((A + 0) / 6) (by linarith) (by linarith)]
          have hgy : z + (x - z) * 6 * ((A + 0) / 6) = y := by
            rw [hAdef]
            field_simp
          rw [hgy, hyg]
        · rw [hue2rgb_shift_up z x ((A + 0) / 6 - 1/3) (by linarith) (by linarith)]
          rw [hue2rgb_high z x ((A + 0) / 6 - 1/3 + 1) (by linarith) (by linarith), hzb]
      · -- red is max, blue > green: hue in [5/6, 1)
        have hmneq : mn = y := by
          rw [hmndef, min_eq_left hylt.le, min_eq_right hyx]
        rw [if_pos hylt, hmxeq, hmneq]
        have hyltx : y < x := by rw [hmxeq, hmneq] at hmnmx; exact hmnmx
        have hdne : x - y ≠ 0 := sub_ne_zero.mpr hyltx.ne'
        set A := (y - z) / (x - y) with hAdef
        have hA1 : A < 0 := div_neg_of_neg_of_pos (by linarith) (by linarith)
        have hA0 : -1 ≤ A := by
          rw [hAdef, le_div_iff₀ (by linarith : (0:ℚ) < x - y)]
          linarith
        simp only [Prod.mk.injEq]
        refine ⟨?_, ?_, ?_⟩
        · rw [hue2rgb_shift_down y x ((A + 6) / 6 + 1/3) (by linarith) (by linarith)]
          rw [hue2rgb_mid y x ((A + 6) / 6 + 1/3 - 1) (by linarith) (by linarith), hxr]
        · rw [hue2rgb_high y x ((A + 6) / 6) (by linarith) (by linarith), hyg]
        · rw [hue2rgb_third y x ((A + 6) / 6 - 1/3) (by linarith) (by linarith)]
          have hbz : y + (x - y) * (2/3 - ((A + 6) / 6 - 1/3)) * 6 = z := by
            rw [hAdef]
            field_simp
            ring
          rw [hbz, hzb]
    · rw [if_neg hxm]
      have hxltmx : x < mx :=
        lt_of_le_of_ne (le_max_left x (max y z)) hxm
      by_cases hym : y = mx
      · rw [if_pos hym]
        have hmxeq : mx = y := hym.symm
        have hzy : z ≤ y := by
          calc z ≤ max y z := le_max_right y z
          _ ≤ mx := le_max_right x (max y z)
          _ = y := hmxeq
        have hxy : x < y := by rw [hmxeq] at hxltmx; exact hxltmx
        rcases le_or_lt x z with hxz | hzltx
        · -- green is max, blue ≥ red: hue in [1/3, 1/2]
          have hmneq : mn = x := by
            rw [hmndef, min_eq_right hzy, min_eq_left hxz]
          rw [hmxeq, hmneq]
          have hdne : y - x ≠ 0 := sub_ne_zero.mpr (by linarith)
          set A := (z - x) / (y - x) with hAdef
          have hA0 : 0 ≤ A := div_nonneg (by linarith) (by linarith)
          have hA1 : A ≤ 1 := by
            rw [hAdef, div_le_one (by linarith)]
            linarith
          simp only [Prod.mk.injEq]
          refine ⟨?_, ?_, ?_⟩
          · rw [hue2rgb_high x y ((A + 2) / 6 + 1/3) (by linarith) (by linarith), hxr]
          · rw [hue2rgb_mid x y ((A + 2) / 6) (by linarith) (by linarith), hyg]
          · rw [hue2rgb_low x y ((A + 2) / 6 - 1/3) (by linarith) (by linarith)]
            have hbv : x + (y - x) * 6 * ((A + 2) / 6 - 1/3) = z := by
              rw [hAdef]
              field_simp
              ring
            rw [hbv, hzb]
        · -- green is max, red > blue: hue in (1/6, 1/3)
          have hmneq : mn = z := by
            rw [hmndef, min_eq_right hzy, min_eq_right (by linarith : z ≤ x)]
          rw [hmxeq, hmneq]
          have hzyd : z < y := by rw [hmxeq, hmneq] at hmnmx; exact hmnmx
          have hdne : y - z ≠ 0 := sub_ne_zero.mpr (by linarith)
          set A := (z - x) / (y - z) with hAdef
          have hA1 : A < 0 := div_neg_of_neg_of_pos (by linarith) (by linarith)
          have hA0 : -1 < A := by
            rw [hAdef, lt_div_iff₀ (by linarith : (0:ℚ) < y - z)]
            linarith
          simp only [Prod.mk.injEq]
          refine ⟨?_, ?_, ?_⟩
          · rw [hue2rgb_third z y ((A + 2) / 6 + 1/3) (by linarith) (by linarith)]
            have hrv : z + (y - z) * (2/3 - ((A + 2) / 6 + 1/3)) * 6 = x := by
              rw [hAdef]
              field_simp
              ring
            rw [hrv, hxr]
          · rw [hue2rgb_mid z y ((A + 2) / 6) (by linarith) (by linarith), hyg]
          · rw [hue2rgb_shift_up z y ((A + 2) / 6 - 1/3) (by linarith) (by linarith)]
            rw [hue2rgb_high z y ((A + 2) / 6 - 1/3 + 1) (by linarith) (by linarith), hzb]
      · -- blue is max
        rw [if_neg hym]
        have hzm : z = mx := by
          rcases max_choice x (max y z) with h | h
          · exact absurd h.symm hxm
          · rcases max_choice y z with h2 | h2
            · rw [hmxdef, h, h2] at hym
              exact absurd rfl hym
            · rw [hmxdef, h, h2]
        have hmxeq : mx = z := hzm.symm
        have hyltmx : y < mx :=
          lt_of_le_of_ne (le_trans (le_max_left y z) (le_max_right x (max y z))) hym
        have hyz : y < z := by rw [hmxeq] at hyltmx; exact hyltmx
        have hxz : x < z := by rw [hmxeq] at hxltmx; exact hxltmx
        rcases le_or_lt y x with hyx | hxy
        · -- blue is max, red ≥ green: hue in [2/3, 5/6)
          have hmneq : mn = y := by
            rw [hmndef, min_eq_left hyz.le, min_eq_right hyx]
          rw [hmxeq, hmneq]
          have hdne : z - y ≠ 0 := sub_ne_zero.mpr (by linarith)
          set A := (x - y) / (z - y) with hAdef
          have hA0 : 0 ≤ A := div_nonneg (by linarith) (by linarith)
          have hA1 : A < 1 := by
            rw [hAdef, div_lt_one (by linarith)]
            linarith
          simp only [Prod.mk.injEq]
          refine ⟨?_, ?_, ?_⟩
          · rcases eq_or_lt_of_le hA0 with hA00 | hA0pos
            · have hxy0 : x = y := by
                have hnum : x - y = 0 := by
                  have := hA00.symm
                  rw [hAdef, div_eq_zero_iff] at this
                  rcases this with h | h
                  · exact h
                  · exact absurd h hdne
                linarith
              rw [hue2rgb_high y z ((A + 4) / 6 + 1/3) (by linarith) (by linarith)]
              rw [hxy0] at hxr
              rw [hxr]
            · rw [hue2rgb_shift_down y z ((A + 4) / 6 + 1/3) (by linarith) (by linarith)]
              rw [hue2rgb_low y z ((A + 4) / 6 + 1/3 - 1) (by linarith) (by linarith)]
              have hrv : y + (z - y) * 6 * ((A + 4) / 6 + 1/3 - 1) = x := by
                rw [hAdef]
                field_simp
                ring
              rw [hrv, hxr]
          · rw [hue2rgb_high y z ((A + 4) / 6) (by linarith) (by linarith), hyg]
          · rw [hue2rgb_mid y z ((A + 4) / 6 - 1/3) (by linarith) (by linarith), hzb]
        · -- blue is max, green > red: hue in (1/2, 2/3)
          have hmneq : mn = x := by
            rw [hmndef, min_eq_left hyz.le, min_eq_left hxy.le]
          rw [hmxeq, hmneq]
          have hdne : z - x ≠ 0 := sub_ne_zero.mpr (by linarith)
          set A := (x - y) / (z - x) with hAdef
          have hA1 : A < 0 := div_neg_of_neg_of_pos (by linarith) (by linarith)
          have hA0 : -1 < A := by
            rw [hAdef, lt_div_iff₀ (by linarith : (0:ℚ) < z - x)]
            linarith
          simp only [Prod.mk.injEq]
          refine ⟨?_, ?_, ?_⟩
          · rw [hue2rgb_high x z ((A + 4) / 6 + 1/3) (by linarith) (by linarith), hxr]
          · rw [hue2rgb_third x z ((A + 4) / 6) (by linarith) (by linarith)]
            have hgv : x + (z - x) * (2/3 - (A + 4) / 6) * 6 = y := by
              rw [hAdef]
              field_simp
              ring
            rw [hgv, hyg]
          · rw [hue2rgb_mid x z ((A + 4) / 6 - 1/3) (by linarith) (by linarith), hzb]

theorem hsv_roundtrip (r g b : ℚ) (hr0 : 0 ≤ r) (hr1 : r ≤ 255) (hg0 : 0 ≤ g)
    (hg1 : g ≤ 255) (hb0 : 0 ≤ b) (hb1 : b ≤ 255) :
    hsvToRgb (rgbToHsv (r, g, b)).1 (rgbToHsv (r, g, b)).2.1
        (rgbToHsv (r, g, b)).2.2 =
      ((jsRound r : ℚ), (jsRound g : ℚ), (jsRound b : ℚ)) := by
  simp only [rgbToHsv]
  set x := r / 255 with hxdef
  set y := g / 255 with hydef
  set z := b / 255 with hzdef
  have hx0 : 0 ≤ x := by rw [hxdef]; positivity
  have hy0 : 0 ≤ y := by rw [hydef]; positivity
  have hz0 : 0 ≤ z := by rw [hzdef]; positivity
  have hx1 : x ≤ 1 := by rw [hxdef]; linarith
  have hy1 : y ≤ 1 := by rw [hydef]; linarith
  have hz1 : z ≤ 1 := by rw [hzdef]; linarith
  have hxr : x * 255 = r := by rw [hxdef]; field_simp
  have hyg : y * 255 = g := by rw [hydef]; field_simp
  have hzb : z * 255 = b := by rw [hzdef]; field_simp
  set mx := max x (max y z) with hmxdef
  set mn := min x (min y z) with hmndef
  have hmn0 : 0 ≤ mn := le_min hx0 (le_min hy0 hz0)
  by_cases hach : mx = mn
  · rw [if_pos hach]
    have hyx : y = x := by
      have h1 : mn ≤ y := le_trans (min_le_right _ _) (min_le_left _ _)
      have h2 : y ≤ mx := le_trans (le_max_left _ _) (le_max_right _ _)
      have h3 : x ≤ mx := le_max_left _ _
      have h4 : mn ≤ x := min_le_left _ _
      rw [hach] at h2 h3
      linarith
    have hzx : z = x := by
      have h1 : mn ≤ z := le_trans (min_le_right _ _) (min_le_right _ _)
      have h2 : z ≤ mx := le_trans (le_max_right _ _) (le_max_right _ _)
      have h3 : x ≤ mx := le_max_left _ _
      have h4 : mn ≤ x := min_le_left _ _
      rw [hach] at h2 h3
      linarith
    have hgr : g = r := by rw [← hyg, ← hxr, hyx]
    have hbr : b = r := by rw [← hzb, ← hxr, hzx]
    have hs0 : (if mx = 0 then (0:ℚ) else (mx - mn) / mx) = 0 := by
      by_cases hmx0 : mx = 0
      · rw [if_pos hmx0]
      · rw [if_neg hmx0, hach, sub_self, zero_div]
    rw [hs0]
    have hmxx : mx = x := by
      rw [hmxdef, hyx, hzx, max_self, max_self]
    rw [hmxx, hsvToRgb]
    have hfl : ⌊(0:ℚ) * 6⌋ = 0 := by norm_num
    rw [hfl]
    norm_num
    rw [hxr, hgr, hbr]
    exact ⟨rfl, rfl, rfl⟩
  · rw [if_neg hach]
    have hmnmx : mn < mx :=
      lt_of_le_of_ne (le_trans (min_le_left _ _) (le_max_left _ _))
        (fun h => hach h.symm)
    have hmxpos : 0 < mx := lt_of_le_of_lt hmn0 hmnmx
    rw [if_neg hmxpos.ne']
    rw [hsvToRgb]
    by_cases hxm : x = mx
    · rw [if_pos hxm]
      have hyx : y ≤ x := by
        calc y ≤ max y z := le_max_left y z
        _ ≤ mx := le_max_right x (max y z)
        _ = x := hxm.symm
      have hzx : z ≤ x := by
        calc z ≤ max y z := le_max_right y z
        _ ≤ mx := le_max_right x (max y z)
        _ = x := hxm.symm
      have hmxeq : mx = x := hxm.symm
      rcases le_or_lt z y with hzy | hylt
      · -- red is max, green ≥ blue: sector 0 (or 1 when g = r)
        have hmneq : mn = z := by
          rw [hmndef, min_eq_right hzy, min_eq_right hzx]
        rw [if_neg (not_lt.mpr hzy), hmxeq, hmneq]
        have hzltx : z < x := by rw [hmxeq, hmneq] at hmnmx; exact hmnmx
        have hdne : x - z ≠ 0 := sub_ne_zero.mpr hzltx.ne'
        have hxne : x ≠ 0 := (hmxeq ▸ hmxpos).ne' 
        set A := (y - z) / (x - z) with hAdef
        have hA0 : 0 ≤ A := div_nonneg (by linarith) (by linarith)
        have hA1 : A ≤ 1 := by
          rw [hAdef, div_le_one (by linarith)]
          linarith
        rcases lt_or_eq_of_le hA1 with hAlt | hAeq
        · have hfl : ⌊(A + 0) / 6 * 6⌋ = 0 := by
            apply Int.floor_eq_iff.mpr
            constructor
            · push_cast
              linarith
            · push_cast
              linarith
          rw [hfl]
          rw [show Int.tmod (0:ℤ) 6 = 0 from by decide]
          rw [if_pos rfl]
          simp only [Prod.mk.injEq]
          refine ⟨?_, ?_, ?_⟩
          · rw [hxr]
          · have hgv : x * (1 - (1 - ((A + 0) / 6 * 6 - ((0:ℤ) : ℚ))) * ((x - z) / x)) = y := by
              rw [hAdef]
              field_simp
              ring
            rw [hgv, hyg]
          · have hbv : x * (1 - (x - z) / x) = z := by
              field_simp
            rw [hbv, hzb]
        · -- A = 1 means g = r: sector 1, f = 0
          have hyeqx : y = x := by
            rw [hAdef] at hAeq
            have := (div_eq_one_iff_eq hdne).mp hAeq
            linarith
          have hfl : ⌊(A + 0) / 6 * 6⌋ = 1 := by
            apply Int.floor_eq_iff.mpr
            constructor
            · push_cast
              linarith
            · push_cast
              linarith
          rw [hfl]
          rw [show Int.tmod (1:ℤ) 6 = 1 from by decide]
          rw [if_neg (by decide), if_pos rfl]
          simp only [Prod.mk.injEq]
          refine ⟨?_, ?_, ?_⟩
          · have hrv : x * (1 - ((A + 0) / 6 * 6 - ((1:ℤ) : ℚ)) * ((x - z) / x)) = x := by
              rw [hAeq]
              norm_num
            rw [hrv, hxr]
          · rw [hyeqx] at hyg
            rw [hyg]
          · have hbv : x * (1 - (x - z) / x) = z := by
              field_simp
            rw [hbv, hzb]
      · -- red is max, blue > green: sector 5
        have hmneq : mn = y := by
          rw [hmndef, min_eq_left hylt.le, min_eq_right hyx]
        rw [if_pos hylt, hmxeq, hmneq]
        have hyltx : y < x := by rw [hmxeq, hmneq] at hmnmx; exact hmnmx
        have hdne : x - y ≠ 0 := sub_ne_zero.mpr hyltx.ne'
        have hxne : x ≠ 0 := (hmxeq ▸ hmxpos).ne' 
        set A := (y - z) / (x - y) with hAdef
        have hA1 : A < 0 := div_neg_of_neg_of_pos (by linarith) (by linarith)
        have hA0 : -1 ≤ A := by
          rw [hAdef, le_div_iff₀ (by linarith : (0:ℚ) < x - y)]
          linarith
        have hfl : ⌊(A + 6) / 6 * 6⌋ = 5 := by
          apply Int.floor_eq_iff.mpr
          constructor
          · push_cast
            linarith
          · push_cast
            linarith
        rw [hfl]
        rw [show Int.tmod (5:ℤ) 6 = 5 from by decide]
        rw [if_neg (by decide), if_neg (by decide), if_neg (by decide),
          if_neg (by decide), if_neg (by decide), if_pos rfl]
        simp only [Prod.mk.injEq]
        refine ⟨?_, ?_, ?_⟩
        · rw [hxr]
        · have hgv : x * (1 - (x - y) / x) = y := by
            field_simp
          rw [hgv, hyg]
        · have hbv : x * (1 - ((A + 6) / 6 * 6 - ((5:ℤ) : ℚ)) * ((x - y) / x)) = z := by
            rw [hAdef]
            push_cast
            field_simp
            ring
          rw [hbv, hzb]
    · rw [if_neg hxm]
      have hxltmx : x < mx :=
        lt_of_le_of_ne (le_max_left x (max y z)) hxm
      by_cases hym : y = mx
      · rw [if_pos hym]
        have hmxeq : mx = y := hym.symm
        have hzy : z ≤ y := by
          calc z ≤ max y z := le_max_right y z
          _ ≤ mx := le_max_right x (max y z)
          _ = y := hmxeq
        have hxy : x < y := by rw [hmxeq] at hxltmx; exact hxltmx
        have hyne : y ≠ 0 := (hmxeq ▸ hmxpos).ne'
        rcases le_or_lt x z with hxz | hzltx
        · -- green is max, blue ≥ red: sector 2 (or 3 when b = g)
          have hmneq : mn = x := by
            rw [hmndef, min_eq_right hzy, min_eq_left hxz]
          rw [hmxeq, hmneq]
          have hdne : y - x ≠ 0 := sub_ne_zero.mpr (by linarith)
          set A := (z - x) / (y - x) with hAdef
          have hA0 : 0 ≤ A := div_nonneg (by linarith) (by linarith)
          have hA1 : A ≤ 1 := by
            rw [hAdef, div_le_one (by linarith)]
            linarith
          rcases lt_or_eq_of_le hA1 with hAlt | hAeq
          · have hfl : ⌊(A + 2) / 6 * 6⌋ = 2 := by
              apply Int.floor_eq_iff.mpr
              constructor
              · push_cast
                linarith
              · push_cast
                linarith
            rw [hfl]
            rw [show Int.tmod (2:ℤ) 6 = 2 from by decide]
            rw [if_neg (by decide), if_neg (by decide), if_pos rfl]
            simp only [Prod.mk.injEq]
            refine ⟨?_, ?_, ?_⟩
            · have hrv : y * (1 - (y - x) / y) = x := by
                field_simp
              rw [hrv, hxr]
            · rw [hyg]
            · have hbv : y * (1 - (1 - ((A + 2) / 6 * 6 - ((2:ℤ) : ℚ))) * ((y - x) / y)) = z := by
                rw [hAdef]
                push_cast
                field_simp
                ring
              rw [hbv, hzb]
          · -- A = 1 means b = g: sector 3, f = 0
            have hzeqy : z = y := by
              rw [hAdef] at hAeq
              have := (div_eq_one_iff_eq hdne).mp hAeq
              linarith
            have hfl : ⌊(A + 2) / 6 * 6⌋ = 3 := by
              apply Int.floor_eq_iff.mpr
              constructor
              · push_cast
                linarith
              · push_cast
                linarith
            rw [hfl]
            rw [show Int.tmod (3:ℤ) 6 = 3 from by decide]
            rw [if_neg (by decide), if_neg (by decide), if_neg (by decide), if_pos rfl]
            simp only [Prod.mk.injEq]
            refine ⟨?_, ?_, ?_⟩
            · have hrv : y * (1 - (y - x) / y) = x := by
                field_simp
              rw [hrv, hxr]
            · have hgv : y * (1 - ((A + 2) / 6 * 6 - ((3:ℤ) : ℚ)) * ((y - x) / y)) = y := by
                rw [hAeq]
                norm_num
              rw [hgv, hyg]
            · rw [hzeqy] at hzb
              rw [hzb]
        · -- green is max, red > blue: sector 1
          have hmneq : mn = z := by
            rw [hmndef, min_eq_right hzy, min_eq_right hzltx.le]
          rw [hmxeq, hmneq]
          have hzyd : z < y := by rw [hmxeq, hmneq] at hmnmx; exact hmnmx
          have hdne : y - z ≠ 0 := sub_ne_zero.mpr (by linarith)
          set A := (z - x) / (y - z) with hAdef
          have hA1 : A < 0 := div_neg_of_neg_of_pos (by linarith) (by linarith)
          have hA0 : -1 < A := by
            rw [hAdef, lt_div_iff₀ (by linarith : (0:ℚ) < y - z)]
            linarith
          have hfl : ⌊(A + 2) / 6 * 6⌋ = 1 := by
            apply Int.floor_eq_iff.mpr
            constructor
            · push_cast
              linarith
            · push_cast
              linarith
          rw [hfl]
          rw [show Int.tmod (1:ℤ) 6 = 1 from by decide]
          rw [if_neg (by decide), if_pos rfl]
          simp only [Prod.mk.injEq]
          refine ⟨?_, ?_, ?_⟩
          · have hrv : y * (1 - ((A + 2) / 6 * 6 - ((1:ℤ) : ℚ)) * ((y - z) / y)) = x := by
              rw [hAdef]
              push_cast
              field_simp
              ring
            rw [hrv, hxr]
          · rw [hyg]
          · have hbv : y * (1 - (y - z) / y) = z := by
              field_simp
            rw [hbv, hzb]
      · -- blue is max
        rw [if_neg hym]
        have hzm : z = mx := by
          rcases max_choice x (max y z) with h | h
          · exact absurd h.symm hxm
          · rcases max_choice y z with h2 | h2
            · rw [hmxdef, h, h2] at hym
              exact absurd rfl hym
            · rw [hmxdef, h, h2]
        have hmxeq : mx = z := hzm.symm
        have hyltmx : y < mx :=
          lt_of_le_of_ne (le_trans (le_max_left y z) (le_max_right x (max y z))) hym
        have hyz : y < z := by rw [hmxeq] at hyltmx; exact hyltmx
        have hxz : x < z := by rw [hmxeq] at hxltmx; exact hxltmx
        have hzne : z ≠ 0 := (hmxeq ▸ hmxpos).ne'
        rcases le_or_lt y x with hyx | hxy
        · -- blue is max, red ≥ green: sector 4
          have hmneq : mn = y := by
            rw [hmndef, min_eq_left hyz.le, min_eq_right hyx]
          rw [hmxeq, hmneq]
          have hdne : z - y ≠ 0 := sub_ne_zero.mpr (by linarith)
          set A := (x - y) / (z - y) with hAdef
          have hA0 : 0 ≤ A := div_nonneg (by linarith) (by linarith)
          have hA1 : A < 1 := by
            rw [hAdef, div_lt_one (by linarith)]
            linarith
          have hfl : ⌊(A + 4) / 6 * 6⌋ = 4 := by
            apply Int.floor_eq_iff.mpr
            constructor
            · push_cast
              linarith
            · push_cast
              linarith
          rw [hfl]
          rw [show Int.tmod (4:ℤ) 6 = 4 from by decide]
          rw [if_neg (by decide), if_neg (by decide), if_neg (by decide),
            if_neg (by decide), if_pos rfl]
          simp only [Prod.mk.injEq]
          refine ⟨?_, ?_, ?_⟩
          · have hrv : z * (1 - (1 - ((A + 4) / 6 * 6 - ((4:ℤ) : ℚ))) * ((z - y) / z)) = x := by
              rw [hAdef]
              push_cast
              field_simp
              ring
            rw [hrv, hxr]
          · have hgv : z * (1 - (z - y) / z) = y := by
              field_simp
            rw [hgv, hyg]
          · rw [hzb]
        · -- blue is max, green > red: sector 3
          have hmneq : mn = x := by
            rw [hmndef, min_eq_left hyz.le, min_eq_left hxy.le]
          rw [hmxeq, hmneq]
          have hdne : z - x ≠ 0 := sub_ne_zero.mpr (by linarith)
          set A := (x - y) / (z - x) with hAdef
          have hA1 : A < 0 := div_neg_of_neg_of_pos (by linarith) (by linarith)
          have hA0 : -1 < A := by
            rw [hAdef, lt_div_iff₀ (by linarith : (0:ℚ) < z - x)]
            linarith
          have hfl : ⌊(A + 4) / 6 * 6⌋ = 3 := by
            apply Int.floor_eq_iff.mpr
            constructor
            · push_cast
              linarith
            · push_cast
              linarith
          rw [hfl]
          rw [show Int.tmod (3:ℤ) 6 = 3 from by decide]
          rw [if_neg (by decide), if_neg (by decide), if_neg (by decide), if_pos rfl]
          simp only [Prod.mk.injEq]
          refine ⟨?_, ?_, ?_⟩
          · have hrv : z * (1 - (z - x) / z) = x := by
              field_simp
            rw [hrv, hxr]
          · have hgv : z * (1 - ((A + 4) / 6 * 6 - ((3:ℤ) : ℚ)) * ((z - x) / z)) = y := by
              rw [hAdef]
              push_cast
              field_simp
              ring
            rw [hgv, hyg]
          · rw [hzb]

/-- Rounding an integral rational returns it unchanged. -/
theorem jsRound_natCast (n : ℕ) : jsRound (n : ℚ) = (n : ℤ) := by
  unfold jsRound
  apply Int.floor_eq_iff.mpr
  constructor
  · push_cast
    linarith
  · push_cast
    linarith

/-- Cast form of `jsRound_natCast`. -/
theorem jsRound_natCast_q (n : ℕ) : ((jsRound (n : ℚ) : ℤ) : ℚ) = (n : ℚ) := by
  rw [jsRound_natCast]
  push_cast
  ring

/-- The HSL round trip is exact on byte colors. -/
theorem hslRoundTrip_exact (r g b : ℕ) (hr : r ≤ 255) (hg : g ≤ 255)
    (hb : b ≤ 255) :
    hslRoundTrip ((r : ℚ), (g : ℚ), (b : ℚ)) = ((r : ℚ), (g : ℚ), (b : ℚ)) := by
  unfold hslRoundTrip
  rw [hsl_roundtrip (r : ℚ) (g : ℚ) (b : ℚ) (by positivity) (by exact_mod_cast hr)
    (by positivity) (by exact_mod_cast hg) (by positivity) (by exact_mod_cast hb)]
  rw [jsRound_natCast_q, jsRound_natCast_q, jsRound_natCast_q]

/-- The HSV round trip is exact on byte colors. -/
theorem hsvRoundTrip_exact (r g b : ℕ) (hr : r ≤ 255) (hg : g ≤ 255)
    (hb : b ≤ 255) :
    hsvRoundTrip ((r : ℚ), (g : ℚ), (b : ℚ)) = ((r : ℚ), (g : ℚ), (b : ℚ)) := by
  unfold hsvRoundTrip
  rw [hsv_roundtrip (r : ℚ) (g : ℚ) (b : ℚ) (by positivity) (by exact_mod_cast hr)
    (by positivity) (by exact_mod_cast hg) (by positivity) (by exact_mod_cast hb)]
  rw [jsRound_natCast_q, jsRound_natCast_q, jsRound_natCast_q]

/-- C7: for every RGB triple with integer channels in [0,255], converting to
HSL and back yields every channel within 1 of the original (in fact the
round trip is exact), and the same holds for the HSV pair. -/
theorem roundtrip_within_one (r g b : ℕ) (hr : r ≤ 255) (hg : g ≤ 255)
    (hb : b ≤ 255) :
    (hslRoundTrip ((r : ℚ), (g : ℚ), (b : ℚ)) = ((r : ℚ), (g : ℚ), (b : ℚ)) ∧
      hsvRoundTrip ((r : ℚ), (g : ℚ), (b : ℚ)) = ((r : ℚ), (g : ℚ), (b : ℚ))) ∧
    |(hslRoundTrip ((r : ℚ), (g : ℚ), (b : ℚ))).1 - (r : ℚ)| ≤ 1 ∧
    |(hslRoundTrip ((r : ℚ), (g : ℚ), (b : ℚ))).2.1 - (g : ℚ)| ≤ 1 ∧
    |(hslRoundTrip ((r : ℚ), (g : ℚ), (b : ℚ))).2.2 - (b : ℚ)| ≤ 1 ∧
    |(hsvRoundTrip ((r : ℚ), (g : ℚ), (b : ℚ))).1 - (r : ℚ)| ≤ 1 ∧
    |(hsvRoundTrip ((r : ℚ), (g : ℚ), (b : ℚ))).2.1 - (g : ℚ)| ≤ 1 ∧
    |(hsvRoundTrip ((r : ℚ), (g : ℚ), (b : ℚ))).2.2 - (b : ℚ)| ≤ 1 := by
  have h1 := hslRoundTrip_exact r g b hr hg hb
  have h2 := hsvRoundTrip_exact r g b hr hg hb
  refine ⟨⟨h1, h2⟩, ?_, ?_, ?_, ?_, ?_, ?_⟩ <;>
    simp [h1, h2]

/-- Witness for C7 at the concrete color (12, 200, 57). -/
theorem roundtrip_within_one_witness :
    hslRoundTrip ((12 : ℚ), (200 : ℚ), (57 : ℚ)) = ((12 : ℚ), (200 : ℚ), (57 : ℚ)) ∧
      hsvRoundTrip ((12 : ℚ), (200 : ℚ), (57 : ℚ)) = ((12 : ℚ), (200 : ℚ), (57 : ℚ)) :=
  (roundtrip_within_one 12 200 57 (by norm_num) (by norm_num) (by norm_num)).1

/-- C8: harmonizing the single-color palette [[128,128,128]] with the
"pastel" profile produces [[215,195,195]], whose HSL saturation is exactly
0.2 (the clamp to the profile range [0.2,0.6] raised it from 0), not 0. -/
theorem harmonize_pastel_gray :
    harmonizeColors [((128 : ℚ), 128, 128)] "pastel" = [((215 : ℚ), 195, 195)] ∧
    (rgbToHsl ((215 : ℚ), 195, 195)).2.1 = (0.2 : ℚ) ∧
    (rgbToHsl ((215 : ℚ), 195, 195)).2.1 ≠ 0 := by
  have hsat : (rgbToHsl ((215 : ℚ), 195, 195)).2.1 = (0.2 : ℚ) := by
    norm_num [rgbToHsl]
  refine ⟨?_, hsat, by rw [hsat]; norm_num⟩
  have hp : harmonyModels "pastel" =
      ⟨1.2, 0.2, 0.5, 0.0, some (0.7, 0.95), some (0.2, 0.6)⟩ := by rfl
  norm_num [harmonizeColors, harmonizeColor, hp, applySat, applyLight,
    rgbToHsl, hslToRgb, hue2rgb, jsRound]

/-- Saturation and lightness computed by `rgbToHsl` lie in [0,1] for
channels in [0,255]. -/
theorem rgbToHsl_sat_light_bounds (r g b : ℚ) (hr0 : 0 ≤ r) (hr1 : r ≤ 255)
    (hg0 : 0 ≤ g) (hg1 : g ≤ 255) (hb0 : 0 ≤ b) (hb1 : b ≤ 255) :
    0 ≤ (rgbToHsl (r, g, b)).2.1 ∧ (rgbToHsl (r, g, b)).2.1 ≤ 1 ∧
      0 ≤ (rgbToHsl (r, g, b)).2.2 ∧ (rgbToHsl (r, g, b)).2.2 ≤ 1 := by
  simp only [rgbToHsl]
  set x := r / 255 with hxdef
  set y := g / 255 with hydef
  set z := b / 255 with hzdef
  have hx0 : 0 ≤ x := by rw [hxdef]; positivity
  have hy0 : 0 ≤ y := by rw [hydef]; positivity
  have hz0 : 0 ≤ z := by rw [hzdef]; positivity
  have hx1 : x ≤ 1 := by rw [hxdef]; linarith
  have hy1 : y ≤ 1 := by rw [hydef]; linarith
  have hz1 : z ≤ 1 := by rw [hzdef]; linarith
  set mx := max x (max y z) with hmxdef
  set mn := min x (min y z) with hmndef
  have hmn0 : 0 ≤ mn := le_min hx0 (le_min hy0 hz0)
  have hmx1 : mx ≤ 1 := max_le hx1 (max_le hy1 hz1)
  have hmnx : mn ≤ x := min_le_left _ _
  have hxmx : x ≤ mx := le_max_left _ _
  by_cases hach : mx = mn
  · rw [if_pos hach]
    dsimp only
    refine ⟨le_refl 0, by norm_num, by linarith, by linarith⟩
  · rw [if_neg hach]
    dsimp only
    have hmnmx : mn < mx :=
      lt_of_le_of_ne (le_trans (min_le_left _ _) (le_max_left _ _))
        (fun h => hach h.symm)
    refine ⟨?_, ?_, by linarith, by linarith⟩
    · by_cases hcond : 1/2 < (mx + mn) / 2
      · rw [if_pos hcond]
        exact div_nonneg (by linarith) (by linarith)
      · rw [if_neg hcond]
        exact div_nonneg (by linarith) (by linarith)
    · by_cases hcond : 1/2 < (mx + mn) / 2
      · rw [if_pos hcond, div_le_one (by linarith)]
        linarith
      · rw [if_neg hcond, div_le_one (by linarith)]
        linarith

/-- The "none" profile transform is the identity on every valid color. -/
theorem harmonizeColor_noneParams_valid (c : Color) (hc : ValidColor c) :
    harmonizeColor noneParams c = c := by
  obtain ⟨c1, c2, c3⟩ := c
  obtain ⟨⟨nr, hnr, hr⟩, ⟨ng, hng, hg⟩, ⟨nb, hnb, hb⟩⟩ := hc
  simp only at hr hg hb
  subst hr hg hb
  have hbd := rgbToHsl_sat_light_bounds (nr : ℚ) (ng : ℚ) (nb : ℚ)
    (by positivity) (by exact_mod_cast hnr) (by positivity)
    (by exact_mod_cast hng) (by positivity) (by exact_mod_cast hnb)
  unfold harmonizeColor
  dsimp only
  have hsat : applySat noneParams (rgbToHsl ((nr : ℚ), (ng : ℚ), (nb : ℚ))).2.1 =
      (rgbToHsl ((nr : ℚ), (ng : ℚ), (nb : ℚ))).2.1 := by
    simp only [applySat, noneParams, ne_eq, one_ne_zero, not_false_eq_true,
      if_true, mul_one, add_zero]
    rw [max_eq_right hbd.1, min_eq_right hbd.2.1]
  have hlight : applyLight noneParams (rgbToHsl ((nr : ℚ), (ng : ℚ), (nb : ℚ))).2.2 =
      (rgbToHsl ((nr : ℚ), (ng : ℚ), (nb : ℚ))).2.2 := by
    simp only [applyLight, noneParams, ne_eq, one_ne_zero, not_false_eq_true,
      if_true, mul_one, add_zero]
    rw [max_eq_right hbd.2.2.1, min_eq_right hbd.2.2.2]
  rw [hsat, hlight]
  have h := hslRoundTrip_exact nr ng nb hnr hng hnb
  unfold hslRoundTrip at h
  exact h

/-- C9: a profile name outside the models table behaves exactly as "none",
and the "none" profile is the identity on every valid palette; no profile
name causes an error (the harmonizer is total). -/
theorem harmonize_unknown_and_none_identity (palette : List Color)
    (hvalid : ∀ c ∈ palette, ValidColor c) (model : String)
    (hunknown : model ∉ knownModelNames) :
    harmonizeColors palette model = harmonizeColors palette "none" ∧
      harmonizeColors palette "none" = palette := by
  have hnone : harmonyModels "none" = noneParams := by rfl
  have hmodel : harmonyModels model = noneParams := by
    simp only [knownModelNames, List.mem_cons, List.not_mem_nil, or_false,
      not_or] at hunknown
    obtain ⟨h1, h2, h3, h4, h5, h6, h7, h8⟩ := hunknown
    unfold harmonyModels
    rw [if_neg h1, if_neg h2, if_neg h3, if_neg h4, if_neg h5, if_neg h6,
      if_neg h7]
  constructor
  · unfold harmonizeColors
    rw [hmodel, hnone]
  · unfold harmonizeColors
    rw [hnone]
    have hid : ∀ c ∈ palette, harmonizeColor noneParams c = id c :=
      fun c hc => harmonizeColor_noneParams_valid c (hvalid c hc)
    rw [List.map_congr_left hid, List.map_id]

/-- Witness for C9: the unknown profile "zzz" on the palette [(1,2,3)]. -/
theorem harmonize_unknown_and_none_identity_witness :
    harmonizeColors [((1 : ℚ), 2, 3)] "zzz" =
        harmonizeColors [((1 : ℚ), 2, 3)] "none" ∧
      harmonizeColors [((1 : ℚ), 2, 3)] "none" = [((1 : ℚ), 2, 3)] :=
  harmonize_unknown_and_none_identity [((1 : ℚ), 2, 3)]
    (by
      intro c hc
      simp only [List.mem_singleton] at hc
      subst hc
      exact ⟨⟨1, by norm_num, by norm_num⟩, ⟨2, by norm_num, by norm_num⟩,
        ⟨3, by norm_num, by norm_num⟩⟩)
    "zzz" (by decide)

/-- C10: the harmonizer preserves the palette length, transforms each color
from the input color at the same position independently of the others, and
feeds each color's HSL hue to the output conversion unchanged — only the
saturation and lightness components are transformed. -/
theorem harmonizeColors_frame (colors : List Color) (model : String) :
    (harmonizeColors colors model).length = colors.length ∧
    harmonizeColors colors model = colors.map (fun c =>
      hslToRgb (rgbToHsl c).1
        (applySat (harmonyModels model) (rgbToHsl c).2.1)
        (applyLight (harmonyModels model) (rgbToHsl c).2.2)) ∧
    ∀ (i : ℕ) (dflt : Color), i < colors.length →
      (harmonizeColors colors model).getD i dflt =
        harmonizeColor (harmonyModels model) (colors.getD i dflt) := by
  refine ⟨by simp [harmonizeColors], rfl, ?_⟩
  intro i dflt hi
  unfold harmonizeColors
  rw [List.getD_eq_getElem?_getD, List.getElem?_map,
    List.getElem?_eq_getElem hi, List.getD_eq_getElem?_getD,
    List.getElem?_eq_getElem hi]
  rfl

/-- Witness for C10 at palette [(5,6,7)], profile "70s", position 0. -/
theorem harmonizeColors_frame_witness :
    (harmonizeColors [((5 : ℚ), 6, 7)] "70s").getD 0 (0, 0, 0) =
      harmonizeColor (harmonyModels "70s") ([((5 : ℚ), 6, 7)].getD 0 (0, 0, 0)) :=
  (harmonizeColors_frame [((5 : ℚ), 6, 7)] "70s").2.2 0 (0, 0, 0) (by norm_num)

/-- The descending-lightness comparator is transitive. -/
theorem lightDesc_trans (a b c : Color) (hab : lightDesc a b = true)
    (hbc : lightDesc b c = true) : lightDesc a c = true := by
  simp only [lightDesc, decide_eq_true_eq] at hab hbc ⊢
  exact le_trans hbc hab

/-- The descending-lightness comparator is total. -/
theorem lightDesc_total (a b : Color) : (lightDesc a b || lightDesc b a) = true := by
  simp only [lightDesc, Bool.or_eq_true, decide_eq_true_eq]
  exact le_total _ _

/-- C3: with jitter draws in [0,1) and N ≥ 2, the variation generator
returns exactly N colors, sorted by descending HSL lightness, and the
returned multiset is exactly the lightness ramp `0.15 + 0.7 * i/(N-1)`
(hitting 0.15 at i = 0 and 0.85 at i = N-1 inclusive) at the seed's hue and
saturation, with per-step hue jitter of at most ±1/40 of a turn (2.5%) and
saturation jitter of at most ±1/20 (5%), the jittered saturation clamped to
[0,1]. -/
theorem generateColorVariations_spec (rand : ℕ → ℚ)
    (hrand : ∀ i, 0 ≤ rand i ∧ rand i < 1) (baseColor : Color) (N : ℕ)
    (hN : 2 ≤ N) :
    (generateColorVariations rand baseColor N).length = N ∧
    List.Sorted (fun a b : Color => (rgbToHsl b).2.2 ≤ (rgbToHsl a).2.2)
      (generateColorVariations rand baseColor N) ∧
    (∃ hj sj : ℕ → ℚ,
      (∀ i, |hj i| ≤ 1/40) ∧ (∀ i, |sj i| ≤ 1/20) ∧
      (generateColorVariations rand baseColor N).Perm
        ((List.range N).map (fun i =>
          hslToRgb (jsMod ((rgbToHsl baseColor).1 + hj i) 1)
            (min 1 (max 0 ((rgbToHsl baseColor).2.1 + sj i)))
            (0.15 + 0.7 * ((i : ℚ) / ((N : ℚ) - 1)))))) ∧
    (0.15 : ℚ) + 0.7 * ((0 : ℚ) / ((N : ℚ) - 1)) = 0.15 ∧
    (0.15 : ℚ) + 0.7 * (((N : ℚ) - 1) / ((N : ℚ) - 1)) = 0.85 := by
  have hN2 : (2 : ℚ) ≤ (N : ℚ) := by exact_mod_cast hN
  have hne : (N : ℚ) - 1 ≠ 0 := by linarith
  refine ⟨?_, ?_, ?_, by norm_num, by rw [div_self hne]; norm_num⟩
  · simp [generateColorVariations, List.length_mergeSort]
  · have hs := List.sorted_mergeSort lightDesc_trans lightDesc_total
      ((List.range N).map (fun (i : ℕ) =>
        hslToRgb (jsMod ((rgbToHsl baseColor).1 + (rand (2 * i) - 0.5) * 0.05) 1)
          (min 1 (max 0 ((rgbToHsl baseColor).2.1 + (rand (2 * i + 1) - 0.5) * 0.1)))
          (0.15 + 0.7 * ((i : ℚ) / ((N : ℚ) - 1)))))
    exact hs.imp (fun h => by simpa [lightDesc, decide_eq_true_eq] using h)
  · refine ⟨fun i => (rand (2 * i) - 0.5) * 0.05,
      fun i => (rand (2 * i + 1) - 0.5) * 0.1, ?_, ?_, ?_⟩
    · intro i
      obtain ⟨h0, h1⟩ := hrand (2 * i)
      have habs : |rand (2 * i) - 0.5| ≤ 1/2 := by
        rw [abs_le]
        constructor <;> linarith
      calc |(rand (2 * i) - 0.5) * 0.05|
          = |rand (2 * i) - 0.5| * 0.05 := by
            rw [abs_mul, show |(0.05 : ℚ)| = 0.05 from by norm_num]
        _ ≤ 1/2 * 0.05 := mul_le_mul_of_nonneg_right habs (by norm_num)
        _ = 1/40 := by norm_num
    · intro i
      obtain ⟨h0, h1⟩ := hrand (2 * i + 1)
      have habs : |rand (2 * i + 1) - 0.5| ≤ 1/2 := by
        rw [abs_le]
        constructor <;> linarith
      calc |(rand (2 * i + 1) - 0.5) * 0.1|
          = |rand (2 * i + 1) - 0.5| * 0.1 := by
            rw [abs_mul, show |(0.1 : ℚ)| = 0.1 from by norm_num]
        _ ≤ 1/2 * 0.1 := mul_le_mul_of_nonneg_right habs (by norm_num)
        _ = 1/20 := by norm_num
    · exact List.mergeSort_perm _ lightDesc

/-- Witness for C3: two variations of (200,30,30) with the constant 1/2
random stream. -/
theorem generateColorVariations_spec_witness :
    (generateColorVariations (fun _ => 1/2) ((200 : ℚ), 30, 30) 2).length = 2 :=
  (generateColorVariations_spec (fun _ => 1/2)
    (fun _ => ⟨by norm_num, by norm_num⟩) ((200 : ℚ), 30, 30) 2 (by norm_num)).1

/-- NaN absorbs addition on the left. -/
theorem jsAdd_nan_left (x : JSNum) : jsAdd JSNum.nan x = JSNum.nan := by
  cases x <;> rfl

/-- NaN absorbs addition on the right. -/
theorem jsAdd_nan_right (x : JSNum) : jsAdd x JSNum.nan = JSNum.nan := by
  cases x <;> rfl

/-- NaN absorbs multiplication on the left. -/
theorem jsMul_nan_left (x : JSNum) : jsMul JSNum.nan x = JSNum.nan := by
  cases x <;> rfl

/-- NaN absorbs multiplication on the right. -/
theorem jsMul_nan_right (x : JSNum) : jsMul x JSNum.nan = JSNum.nan := by
  cases x <;> rfl

/-- NaN absorbs subtraction on the left. -/
theorem jsSub_nan_left (x : JSNum) : jsSub JSNum.nan x = JSNum.nan := by
  cases x <;> rfl

/-- NaN absorbs subtraction on the right. -/
theorem jsSub_nan_right (x : JSNum) : jsSub x JSNum.nan = JSNum.nan := by
  cases x <;> rfl

/-- Comparisons with NaN on the left are false. -/
theorem jsLt_nan_left (x : JSNum) : jsLt JSNum.nan x = false := by
  cases x <;> rfl

/-- Comparisons with NaN on the right are false. -/
theorem jsLt_nan_right (x : JSNum) : jsLt x JSNum.nan = false := by
  cases x <;> rfl

/-- Source `hue2rgb` over `JSNum` returns NaN whenever both `p` and `q` are NaN,
for every `t`. -/
theorem hue2rgbJS_nan (t : JSNum) :
    hue2rgbJS JSNum.nan JSNum.nan t = JSNum.nan := by
  simp only [hue2rgbJS]
  split_ifs <;>
    simp [jsAdd_nan_left, jsAdd_nan_right, jsMul_nan_left, jsMul_nan_right,
      jsSub_nan_left, jsSub_nan_right]

/-- A NaN lightness propagates to all three channels of `hslToRgb`,
whatever the hue and saturation. -/
theorem hslToRgbJS_nan_light (h s : JSNum) :
    hslToRgbJS h s JSNum.nan = (JSNum.nan, JSNum.nan, JSNum.nan) := by
  simp [hslToRgbJS, jsLt_nan_left, jsAdd_nan_left, jsSub_nan_left,
    jsMul_nan_left, jsMul_nan_right, jsSub_nan_right, hue2rgbJS_nan,
    jsRoundN, ite_self]

/-- C4 (code behavior, contradicting the claim): variation generation with
N = 1 computes `t = 0 / 0 = NaN` and the NaN lightness propagates into the
single output color — every channel of the result is NaN, for every seed
color and every random stream.  No special case exists in the code. -/
theorem generateColorVariationsJS_one_all_nan (rand : ℕ → ℚ)
    (baseColor : Color) :
    generateColorVariationsJS rand baseColor 1 =
      [(JSNum.nan, JSNum.nan, JSNum.nan)] := by
  unfold generateColorVariationsJS
  rw [show List.range 1 = [0] from rfl]
  simp only [List.map]
  have hdiv : jsDivN (JSNum.num ((0 : ℕ) : ℚ)) (JSNum.num ((1 : ℕ) - 1 : ℚ)) =
      JSNum.nan := by
    norm_num [jsDivN]
  rw [hdiv]
  rw [show jsMul (JSNum.num 0.7) JSNum.nan = JSNum.nan from
    jsMul_nan_right _]
  rw [show jsAdd (JSNum.num 0.15) JSNum.nan = JSNum.nan from
    jsAdd_nan_right _]
  rw [hslToRgbJS_nan_light]
  rw [List.mergeSort_singleton]

/-- C2 counterexample: dominant-color extraction on an empty pixel buffer
with the positive requested count 3 returns three black seeds — not an
empty seed set. -/
theorem getDominantColors_empty_three_not_empty :
    getDominantColors (fun _ _ => 0) (fun _ => 0) [] 3 =
      [((0 : ℚ), 0, 0), ((0 : ℚ), 0, 0), ((0 : ℚ), 0, 0)] ∧
    getDominantColors (fun _ _ => 0) (fun _ => 0) [] 3 ≠ [] := by
  constructor
  · simp [getDominantColors, floorIdx, List.range_succ]
  · simp [getDominantColors, floorIdx, List.range_succ]

/-- k-means on an empty buffer returns the empty list (first guard). -/
theorem kMeansClustering_nil (d : Color → Color → ℚ) (rand : ℕ → ℚ)
    (k maxIter cap : ℕ) : kMeansClustering d rand [] k maxIter cap = [] := by
  simp [kMeansClustering]

/-- A zero-count request yields an empty seed set for every buffer. -/
theorem getDominantColors_zero (d : Color → Color → ℚ) (rand : ℕ → ℚ)
    (pixels : List Color) : getDominantColors d rand pixels 0 = [] := by
  simp [getDominantColors, kMeansClustering]

/-- On an empty buffer with positive count, the padding loop returns count
copies of black. -/
theorem getDominantColors_nil_succ (d : Color → Color → ℚ) (rand : ℕ → ℚ)
    (k : ℕ) :
    getDominantColors d rand [] (k + 1) =
      List.replicate (k + 1) ((0 : ℚ), 0, 0) := by
  simp only [getDominantColors, List.length_nil, Nat.zero_lt_succ, if_pos,
    List.getD_nil]
  rw [List.map_const', List.length_range]

/-- The refinement tail maps the empty palette to the empty palette. -/
theorem refinePalette_nil (d : Color → Color → ℚ) (thr : ℚ) (hm : String) :
    refinePalette d thr hm [] = [] := by
  simp [refinePalette, harmonizeColors, filterSimilarColors, jsDedupAux]

/-- The categorical pipeline maps an empty buffer to an empty palette. -/
theorem runCategorical_nil (d : Color → Color → ℚ) (rands : ℕ → ℕ → ℚ)
    (ptype : String) (n : ℕ) (hm : String) (thr : ℚ) :
    runCategorical d rands ptype n hm thr [] = [] := by
  simp [runCategorical, hueCategories, refinePalette_nil]

/-- The clustered pipeline with a zero dominant-color count produces an
empty palette on every buffer. -/
theorem runClustered_zero (d : Color → Color → ℚ) (rand : ℕ → ℚ)
    (rands : ℕ → ℕ → ℚ) (ptype : String) (n : ℕ) (hm : String) (thr : ℚ)
    (pixels : List Color) :
    runClustered d rand rands ptype n 0 hm thr pixels = [] := by
  simp [runClustered, getDominantColors_zero, refinePalette_nil]

/-- C2 (amended): k-means on an empty buffer and every zero-count request
produce an empty seed set; the categorical pipeline on an empty buffer and
the clustered pipeline with a zero count produce an empty final palette,
all without error (every stage is total); but an empty buffer with a
positive requested count makes `getDominantColors` return count copies of
black instead of an empty seed set. -/
theorem empty_buffer_zero_count_behavior :
    (∀ (d : Color → Color → ℚ) (rand : ℕ → ℚ) (k maxIter cap : ℕ),
        kMeansClustering d rand [] k maxIter cap = []) ∧
    (∀ (d : Color → Color → ℚ) (rand : ℕ → ℚ) (pixels : List Color),
        getDominantColors d rand pixels 0 = []) ∧
    (∀ (d : Color → Color → ℚ) (rand : ℕ → ℚ) (k : ℕ),
        getDominantColors d rand [] (k + 1) =
          List.replicate (k + 1) ((0 : ℚ), 0, 0)) ∧
    (∀ (d : Color → Color → ℚ) (rands : ℕ → ℕ → ℚ) (ptype : String)
        (n : ℕ) (hm : String) (thr : ℚ),
        runCategorical d rands ptype n hm thr [] = []) ∧
    (∀ (d : Color → Color → ℚ) (rand : ℕ → ℚ) (rands : ℕ → ℕ → ℚ)
        (ptype : String) (n : ℕ) (hm : String) (thr : ℚ)
        (pixels : List Color),
        runClustered d rand rands ptype n 0 hm thr pixels = []) :=
  ⟨kMeansClustering_nil, getDominantColors_zero, getDominantColors_nil_succ,
    runCategorical_nil, runClustered_zero⟩
